import Mathlib

/-!
# Bearer-token authentication of the routing API

A shallow embedding of `authentication/token.go` (package `authentication`)
and the properties of its two operations, `DecodeToken` and
`CheckPublicToken`.

Modelling conventions.

* Go strings are Lean strings; `error` values are `Option GoError`
  (`none` is `nil`).
* The three collaborators the code calls but does not define are the
  fields of `Env`: the key fetcher (`uaaKeyFetcher.FetchKey`), the token
  parser of jwt-go (`jwt.Parse`) and the PEM decoder (`pem.Decode`).  The
  first two may answer differently from one call to the next (network,
  clock), so they take the number of calls made before as an argument.
* The only mutable datum is the cached key `uaaPublicKey`.  The state also
  carries `calls`, the record of the collaborator calls and cache writes
  made so far; it is bookkeeping and never read by the program except to
  number the next call.
* The locks of `rwlock` are not modelled: every operation here runs alone.
* A failed type assertion is a run-time panic: `Outcome.panicked`.
-/

namespace Authentication

/-- Go `error` values that reach this package: `errors.New` strings, the
`*jwt.ValidationError` of jwt-go with its `Errors` bit mask, and errors of
any other dynamic type. -/
inductive GoError where
  | errorString (s : String)
  | validationError (Errors : Nat) (text : String)
  | otherError (text : String)
  deriving DecidableEq, Repr

/-- Values of type `interface{}` as they occur in decoded claims. -/
inductive GoValue where
  | null
  | str (s : String)
  | number (n : Int)
  | bool (b : Bool)
  | slice (xs : List GoValue)
  deriving Repr

/-- The part of `jwt.Token` the code reads: `Claims map[string]interface{}`. -/
structure Token where
  Claims : List (String × GoValue)
  deriving Repr

/-- Map indexing `m[key]`: the zero value (`nil`) when the key is absent. -/
def mapIndex : List (String × GoValue) → String → GoValue
  | [], _ => GoValue.null
  | (k, v) :: rest, key => if k = key then v else mapIndex rest key

/-- The bit `jwt.ValidationErrorSignatureInvalid` of jwt-go
(`1 << iota` constants: malformed 1, unverifiable 2, signature invalid 4,
expired 8, not valid yet 16). -/
def ValidationErrorSignatureInvalid : Nat := 4

/-- The bit `jwt.ValidationErrorExpired`. -/
def ValidationErrorExpired : Nat := 8

/-- The collaborators.  `FetchKey n` is the answer of the `n`-th call
(counting from 0) of `uaaKeyFetcher.FetchKey()`; `Parse n tok key` is the
answer of the `n`-th call of `jwt.Parse` on the string `tok` with a key
function returning `key` (jwt-go returns a non-nil token when the error is
nil); `pemDecode key` tells whether `pem.Decode([]byte(key))` finds a
block.  The decoder of Go finds no block in the empty input; the statements
that depend on it assume `pemDecode "" = false`. -/
structure Env where
  FetchKey : Nat → String × Option GoError
  Parse : Nat → String → String → Except GoError Token
  pemDecode : String → Bool

/-- Observable steps of an execution. -/
inductive Event where
  | fetch (key : String) (err : Option GoError)
  | parse (token : String) (key : String)
  | store (key : String)
  deriving DecidableEq, Repr

/-- Number of `FetchKey` calls in a record. -/
def fetchCount : List Event → Nat
  | [] => 0
  | Event.fetch _ _ :: rest => fetchCount rest + 1
  | _ :: rest => fetchCount rest

/-- Number of `jwt.Parse` calls in a record. -/
def parseCount : List Event → Nat
  | [] => 0
  | Event.parse _ _ :: rest => parseCount rest + 1
  | _ :: rest => parseCount rest

/-- The cached key after the writes of a record, starting from `key`. -/
def cacheAfter (key : String) : List Event → String
  | [] => key
  | Event.store k :: rest => cacheAfter k rest
  | _ :: rest => cacheAfter key rest

/-- The struct `accessToken`: its mutable field and the record of calls. -/
structure accessToken where
  uaaPublicKey : String
  calls : List Event
  deriving DecidableEq, Repr

/-- How a Go call ends: it returns its `error` result, or it panics. -/
inductive Outcome where
  | returned (err : Option GoError)
  | panicked
  deriving DecidableEq, Repr

/-- Pieces of a character list between occurrences of `sep`. -/
def splitChars (sep : Char) : List Char → List (List Char)
  | [] => [[]]
  | c :: cs =>
    if c = sep then [] :: splitChars sep cs
    else
      match splitChars sep cs with
      | [] => [[c]]
      | p :: ps => (c :: p) :: ps

/-- The call `strings.Split(s, sep)` for a one-character separator. -/
def stringsSplit (s : String) (sep : Char) : List String :=
  (splitChars sep s.data).map String.mk

/-- The call `strings.Join(a, sep)`. -/
def stringsJoin : List String → String → String
  | [], _ => ""
  | [a], _ => a
  | a :: b :: rest, sep => a ++ sep ++ stringsJoin (b :: rest) sep

/-- The function `checkTokenFormat`. -/
def checkTokenFormat (token : String) : String × Option GoError :=
  let tokenParts := stringsSplit token ' '
  if tokenParts.length ≠ 2 then
    ("", some (GoError.errorString "Invalid token format"))
  else
    let tokenType := tokenParts.getD 0 ""
    let userToken := tokenParts.getD 1 ""
    if tokenType ≠ "bearer" then
      ("", some (GoError.errorString ("Invalid token type: " ++ tokenType)))
    else
      (userToken, none)

/-- The function `matchesError`; `Errors` is a `uint32`. -/
def matchesError (err : GoError) (errorType : Nat) : Bool :=
  match err with
  | GoError.validationError errs _ => decide ((errs % 2 ^ 32) &&& errorType = errorType)
  | _ => false

/-- The function `checkPublicKey`. -/
def checkPublicKey (env : Env) (key : String) : Option GoError :=
  if env.pemDecode key = false then
    some (GoError.errorString "Public uaa token must be PEM encoded")
  else
    none

/-- The method `getUaaPublicKey`. -/
def getUaaPublicKey (a : accessToken) : String :=
  a.uaaPublicKey

/-- The method `CheckPublicToken`. -/
def CheckPublicToken (env : Env) (a : accessToken) : Option GoError × accessToken :=
  (checkPublicKey env (getUaaPublicKey a), a)

/-- The method `getUaaTokenKey`. -/
def getUaaTokenKey (env : Env) (a : accessToken) (forceFetch : Bool) :
    (String × Option GoError) × accessToken :=
  if getUaaPublicKey a = "" ∨ forceFetch = true then
    let r := env.FetchKey (fetchCount a.calls)
    let a1 : accessToken := ⟨a.uaaPublicKey, a.calls ++ [Event.fetch r.1 r.2]⟩
    match r.2 with
    | some err => ((r.1, some err), a1)
    | none =>
      match checkPublicKey env r.1 with
      | some err => (("", some err), a1)
      | none => ((r.1, none), ⟨r.1, a1.calls ++ [Event.store r.1]⟩)
  else
    ((getUaaPublicKey a, none), a)

/-- How the `for` loop of `DecodeToken` ends: by a `return err` from
inside, or by running out with the current `token` and `err`. -/
inductive LoopExit where
  | ret (err : Option GoError)
  | done (token : Option Token) (err : Option GoError)

/-- The loop `for i := 0; i < 2; i++` of `DecodeToken`, with `n` iterations
left to run. -/
def decodeLoop (env : Env) (jwtToken : String) :
    Nat → Bool → Option Token → Option GoError → accessToken → LoopExit × accessToken
  | 0, _, token, err, a => (LoopExit.done token err, a)
  | n + 1, forceUaaKeyFetch, _, _, a =>
    let r := getUaaTokenKey env a forceUaaKeyFetch
    match r.1.2 with
    | some err => (LoopExit.ret (some err), r.2)
    | none =>
      let uaaKey := r.1.1
      let p := env.Parse (parseCount r.2.calls) jwtToken uaaKey
      let a2 : accessToken := ⟨r.2.uaaPublicKey, r.2.calls ++ [Event.parse jwtToken uaaKey]⟩
      match p with
      | Except.error err =>
        if matchesError err ValidationErrorSignatureInvalid = true then
          decodeLoop env jwtToken n true none (some err) a2
        else
          (LoopExit.ret (some err), a2)
      | Except.ok token => decodeLoop env jwtToken n forceUaaKeyFetch (some token) none a2

/-- The inner loop over `desiredPermissions` for one `permission`; `none`
is the panic of the assertion `permission.(string)`, which is evaluated
once per iteration. -/
def desiredLoop (permission : GoValue) : List String → Bool → Option Bool
  | [], hasPermission => some hasPermission
  | desiredPermission :: rest, hasPermission =>
    match permission with
    | GoValue.str p =>
      if p = desiredPermission then some true
      else desiredLoop permission rest hasPermission
    | _ => none

/-- The outer loop over the elements of the scope claim. -/
def permissionLoop : List GoValue → List String → Bool → Option Bool
  | [], _, hasPermission => some hasPermission
  | permission :: rest, desiredPermissions, hasPermission =>
    match desiredLoop permission desiredPermissions hasPermission with
    | none => none
    | some hp => permissionLoop rest desiredPermissions hp

/-- The scope check that ends `DecodeToken`, from `hasPermission := false`
on. -/
def checkScope (token : Token) (desiredPermissions : List String) : Outcome :=
  let permissions := mapIndex token.Claims "scope"
  match permissions with
  | GoValue.slice a =>
    match permissionLoop a desiredPermissions false with
    | none => Outcome.panicked
    | some hasPermission =>
      if hasPermission = false then
        Outcome.returned (some (GoError.errorString
          ("Token does not have '" ++ stringsJoin desiredPermissions "', '" ++ "' scope")))
      else
        Outcome.returned none
  | _ => Outcome.panicked

/-- The method `DecodeToken`. -/
def DecodeToken (env : Env) (a : accessToken) (userToken : String)
    (desiredPermissions : List String) : Outcome × accessToken :=
  let f := checkTokenFormat userToken
  match f.2 with
  | some err => (Outcome.returned (some err), a)
  | none =>
    let jwtToken := f.1
    match decodeLoop env jwtToken 2 false none none a with
    | (LoopExit.ret err, a1) => (Outcome.returned err, a1)
    | (LoopExit.done token err, a1) =>
      match err with
      | some e => (Outcome.returned (some e), a1)
      | none =>
        match token with
        | none => (Outcome.panicked, a1)
        | some tok => (checkScope tok desiredPermissions, a1)

/-- The constructor `NewAccessToken`; the fetcher it stores is the
`FetchKey` field of `Env`, and nothing has been called yet. -/
def NewAccessToken (uaaPublicKey : String) : accessToken :=
  ⟨uaaPublicKey, []⟩

/-- The type `NullToken` and its two methods. -/
structure NullToken where
  deriving DecidableEq, Repr

/-- The method `NullToken.DecodeToken`. -/
def NullToken.DecodeToken (_ : NullToken) (_ : String) (_ : List String) : Option GoError :=
  none

/-- The method `NullToken.CheckPublicToken`. -/
def NullToken.CheckPublicToken (_ : NullToken) : Option GoError :=
  none

/-! ## Sample collaborators

Concrete keys, tokens and collaborators on which the statements below are
evaluated. -/

/-- A key that decodes as PEM and that the sample verifier no longer
accepts. -/
def pemOld : String := "-----BEGIN PUBLIC KEY-----\nb2xk\n-----END PUBLIC KEY-----"

/-- A key that decodes as PEM and that the sample verifier accepts. -/
def pemNew : String := "-----BEGIN PUBLIC KEY-----\nbmV3\n-----END PUBLIC KEY-----"

/-- A verified token with the scope claim `["a", "b"]`. -/
def tokenAB : Token :=
  ⟨[("scope", GoValue.slice [GoValue.str "a", GoValue.str "b"])]⟩

/-- A verified token without a scope claim. -/
def tokenNoScope : Token :=
  ⟨[("user_id", GoValue.str "u1")]⟩

/-- A verified token whose scope claim is a string, not a list. -/
def tokenScopeString : Token :=
  ⟨[("scope", GoValue.str "a b")]⟩

/-- A verified token whose scope list holds a number. -/
def tokenScopeMixed : Token :=
  ⟨[("scope", GoValue.slice [GoValue.str "a", GoValue.number 7])]⟩

/-- The sample verifier: under `pemNew` the strings `x`, `noscope`,
`strscope` and `mixed` are signed tokens; `expired` fails on its expiry
claim under every key; everything else fails on the signature. -/
def sampleParse (_ : Nat) (token key : String) : Except GoError Token :=
  if key = pemNew ∧ token = "x" then Except.ok tokenAB
  else if key = pemNew ∧ token = "noscope" then Except.ok tokenNoScope
  else if key = pemNew ∧ token = "strscope" then Except.ok tokenScopeString
  else if key = pemNew ∧ token = "mixed" then Except.ok tokenScopeMixed
  else if token = "expired" then
    Except.error (GoError.validationError ValidationErrorExpired "token is expired")
  else
    Except.error (GoError.validationError ValidationErrorSignatureInvalid
      "signature is invalid")

/-- The sample PEM decoder: the two sample keys decode. -/
def samplePem (key : String) : Bool :=
  decide (key = pemOld ∨ key = pemNew)

/-- A key source whose first answer is `pemNew` and which is unreachable
afterwards. -/
def sampleEnv : Env where
  FetchKey := fun n =>
    if n = 0 then (pemNew, none) else ("", some (GoError.otherError "connection refused"))
  Parse := sampleParse
  pemDecode := samplePem

/-- A key source that answers with something that is not PEM. -/
def sampleEnvBadKey : Env where
  FetchKey := fun _ => ("not a key", none)
  Parse := sampleParse
  pemDecode := samplePem

/-! ## Splitting and joining strings -/

theorem splitChars_length (sep : Char) (l : List Char) :
    (splitChars sep l).length = l.count sep + 1 := by
  induction l with
  | nil => simp [splitChars]
  | cons c cs ih =>
    by_cases hc : c = sep
    · subst hc
      simp [splitChars, ih]
    · have hne : (c == sep) = false := by simpa using hc
      cases hs2 : splitChars sep cs with
      | nil => simp [hs2] at ih
      | cons p ps => simp [splitChars, hc, hs2, List.count_cons, hne] at ih ⊢; omega

theorem splitChars_single (sep : Char) (l q : List Char) :
    splitChars sep l = [q] ↔ l = q ∧ sep ∉ q := by
  induction l generalizing q with
  | nil => 
    simp only [splitChars, List.cons.injEq, and_true]
    constructor
    · intro h; subst h; simp
    · intro h; exact h.1
  | cons c cs ih =>
    by_cases hc : c = sep
    · subst hc
      simp [splitChars]
      constructor
      · intro h
        have := splitChars_length c cs
        simp [h.2] at this
      · rintro ⟨h1, h2⟩
        subst h1
        simp at h2
    · cases hs2 : splitChars sep cs with
      | nil => 
        have := splitChars_length sep cs
        simp [hs2] at this
      | cons p ps =>
        simp only [splitChars, hc, hs2, if_false]
        constructor
        · intro h
          simp at h
          obtain ⟨h1, h2⟩ := h
          subst h1 h2
          have := (ih p).1 hs2
          obtain ⟨h3, h4⟩ := this
          subst h3
          simp [h4]
          exact fun h => hc h.symm
        · rintro ⟨h1, h2⟩
          subst h1
          simp at h2
          have := (ih cs).2 ⟨rfl, h2.2⟩
          rw [hs2] at this
          simp at this
          simp [this]

theorem splitChars_pair (sep : Char) (l p q : List Char) :
    splitChars sep l = [p, q] ↔ l = p ++ sep :: q ∧ sep ∉ p ∧ sep ∉ q := by
  induction l generalizing p with
  | nil => simp [splitChars]
  | cons c cs ih =>
    by_cases hc : c = sep
    · subst hc
      simp only [splitChars, if_true]
      constructor
      · intro h
        simp at h
        obtain ⟨h1, h2⟩ := h
        subst h1
        have := (splitChars_single c cs q).1 h2
        simp [this.1, this.2]
      · rintro ⟨h1, h2, h3⟩
        cases p with
        | nil => 
          simp at h1
          subst h1
          simp [(splitChars_single c cs cs).2 ⟨rfl, h3⟩]
        | cons x xs =>
          simp at h1
          simp [h1.1] at h2
    · cases hs2 : splitChars sep cs with
      | nil => 
        have := splitChars_length sep cs
        simp [hs2] at this
      | cons p1 ps =>
        simp only [splitChars, hc, hs2, if_false]
        constructor
        · intro h
          simp at h
          obtain ⟨h1, h2⟩ := h
          subst h1 h2
          obtain ⟨h3, h4, h5⟩ := (ih p1).1 hs2
          subst h3
          simp [h4, h5]
          exact fun h => hc h.symm
        · rintro ⟨h1, h2, h3⟩
          cases p with
          | nil => 
            simp at h1
            exact absurd h1.1 hc
          | cons x xs =>
            simp at h1 h2
            obtain ⟨h6, h7⟩ := h1
            subst h6 h7
            have := (ih xs).2 ⟨rfl, h2.2, h3⟩
            rw [hs2] at this
            simp at this
            simp [this.1, this.2]

/-! ## The header format -/

theorem stringsSplit_length (h : String) :
    (stringsSplit h ' ').length = h.data.count ' ' + 1 := by
  simp [stringsSplit, splitChars_length]

theorem format_message_ne (p : String) :
    "Invalid token type: " ++ p ≠ "Invalid token format" := by
  intro h
  have h2 := congrArg (fun s => s.data.get? 14) h
  simp [String.data_append] at h2

theorem checkTokenFormat_of_pair (h p q : String)
    (hs : splitChars ' ' h.data = [p.data, q.data]) :
    checkTokenFormat h =
      if p ≠ "bearer" then ("", some (GoError.errorString ("Invalid token type: " ++ p)))
      else (q, none) := by
  simp [checkTokenFormat, stringsSplit, hs]

theorem split_of_append (p q : String) (hp : ' ' ∉ p.data) (hq : ' ' ∉ q.data) :
    splitChars ' ' (p ++ " " ++ q).data = [p.data, q.data] := by
  rw [splitChars_pair]
  refine ⟨?_, hp, hq⟩
  simp [String.data_append]

theorem count_of_append (p q : String) (hp : ' ' ∉ p.data) (hq : ' ' ∉ q.data) :
    (p ++ " " ++ q).data.count ' ' = 1 := by
  have h1 := splitChars_length ' ' (p ++ " " ++ q).data
  rw [split_of_append p q hp hq] at h1
  simp only [List.length_cons, List.length_nil] at h1
  omega

/-- The two ways `checkTokenFormat` can go: the header does not hold exactly
one space and the format error is returned, or it is `p`, a space, `q` and
the answer depends on `p` alone. -/
theorem checkTokenFormat_cases (h : String) :
    (h.data.count ' ' ≠ 1 ∧
      checkTokenFormat h = ("", some (GoError.errorString "Invalid token format"))) ∨
    (∃ p q : String, h = p ++ " " ++ q ∧ ' ' ∉ p.data ∧ ' ' ∉ q.data ∧
      checkTokenFormat h =
        if p ≠ "bearer" then ("", some (GoError.errorString ("Invalid token type: " ++ p)))
        else (q, none)) := by
  by_cases hl : (stringsSplit h ' ').length = 2
  · right
    have hl2 : (splitChars ' ' h.data).length = 2 := by simpa [stringsSplit] using hl
    match hs : splitChars ' ' h.data, hl2 with
    | [p, q], _ =>
      obtain ⟨h1, h2, h3⟩ := (splitChars_pair ' ' h.data p q).1 hs
      refine ⟨⟨p⟩, ⟨q⟩, ?_, h2, h3, checkTokenFormat_of_pair h ⟨p⟩ ⟨q⟩ hs⟩
      apply String.ext
      simp [String.data_append, h1]
  · left
    constructor
    · rw [stringsSplit_length] at hl
      omega
    · simp [checkTokenFormat, hl]

/-- Claim C6.  `checkTokenFormat` is total (its two index reads are made
only on a slice of length 2) and for every header `h`: it returns
`(t, nil)` exactly when `h` is `"bearer"`, one space and a space-free `t`;
it returns the error `Invalid token format` exactly when `h` does not hold
exactly one space; and on `p`, one space, `q` with `p` and `q` space-free
and `p` different from `"bearer"` it returns the error
`Invalid token type: ` followed by `p`. -/
theorem checkTokenFormat_spec (h : String) :
    (∀ t : String, checkTokenFormat h = (t, none) ↔
        (h = "bearer" ++ " " ++ t ∧ ' ' ∉ t.data)) ∧
    (checkTokenFormat h = ("", some (GoError.errorString "Invalid token format")) ↔
        h.data.count ' ' ≠ 1) ∧
    (∀ p q : String, h = p ++ " " ++ q → ' ' ∉ p.data → ' ' ∉ q.data → p ≠ "bearer" →
        checkTokenFormat h =
          ("", some (GoError.errorString ("Invalid token type: " ++ p)))) := by
  refine ⟨?_, ?_, ?_⟩
  · intro t
    constructor
    · intro ht
      rcases checkTokenFormat_cases h with ⟨_, h2⟩ | ⟨p, q, h1, h2, h3, h4⟩
      · rw [h2] at ht
        simp at ht
      · rw [h4] at ht
        by_cases hp : p = "bearer"
        · subst hp
          simp at ht
          subst ht
          exact ⟨h1, h3⟩
        · simp [hp] at ht
    · rintro ⟨rfl, hsp⟩
      rw [checkTokenFormat_of_pair _ "bearer" t (split_of_append "bearer" t (by decide) hsp)]
      simp
  · constructor
    · intro hf
      rcases checkTokenFormat_cases h with ⟨h1, _⟩ | ⟨p, q, h1, h2, h3, h4⟩
      · exact h1
      · rw [h4] at hf
        by_cases hp : p = "bearer"
        · simp [hp] at hf
        · simp [hp] at hf
          exact absurd hf (format_message_ne p)
    · intro hc
      rcases checkTokenFormat_cases h with ⟨_, h2⟩ | ⟨p, q, h1, h2, h3, h4⟩
      · exact h2
      · subst h1
        exact absurd (count_of_append p q h2 h3) hc
  · rintro p q rfl hp hq hne
    rw [checkTokenFormat_of_pair _ p q (split_of_append p q hp hq)]
    simp [hne]

/-- Claim C6 on the headers it names: the empty string, `bearer` alone and
`bearer` with two spaces fail on the format, `Bearer x` on the type, and
`bearer x` gives the token `x`. -/
theorem checkTokenFormat_spec_witness :
    checkTokenFormat "" = ("", some (GoError.errorString "Invalid token format")) ∧
    checkTokenFormat "bearer" = ("", some (GoError.errorString "Invalid token format")) ∧
    checkTokenFormat "bearer  x" = ("", some (GoError.errorString "Invalid token format")) ∧
    checkTokenFormat "Bearer x" = ("", some (GoError.errorString "Invalid token type: Bearer")) ∧
    checkTokenFormat "bearer x" = ("x", none) :=
  ⟨(checkTokenFormat_spec "").2.1.2 (by decide),
   (checkTokenFormat_spec "bearer").2.1.2 (by decide),
   (checkTokenFormat_spec "bearer  x").2.1.2 (by decide),
   (checkTokenFormat_spec "Bearer x").2.2 "Bearer" "x" (by decide) (by decide) (by decide)
     (by decide),
   ((checkTokenFormat_spec "bearer x").1 "x").2 ⟨by decide, by decide⟩⟩

/-! ## Bookkeeping -/

@[simp] theorem fetchCount_append (l m : List Event) :
    fetchCount (l ++ m) = fetchCount l + fetchCount m := by
  induction l with
  | nil => simp [fetchCount]
  | cons e l ih =>
    cases e <;> simp [fetchCount, ih]
    omega

@[simp] theorem parseCount_append (l m : List Event) :
    parseCount (l ++ m) = parseCount l + parseCount m := by
  induction l with
  | nil => simp [parseCount]
  | cons e l ih =>
    cases e <;> simp [parseCount, ih]
    omega

theorem cacheAfter_append (k : String) (l m : List Event) :
    cacheAfter k (l ++ m) = cacheAfter (cacheAfter k l) m := by
  induction l generalizing k with
  | nil => simp [cacheAfter]
  | cons e l ih => cases e <;> simp [cacheAfter, ih]

/-! ## The scope check -/

theorem desiredLoop_str (p : String) (R : List String) (hp : Bool) :
    desiredLoop (GoValue.str p) R hp = some (hp || decide (p ∈ R)) := by
  induction R with
  | nil => simp [desiredLoop]
  | cons d rest ih =>
    by_cases h : p = d
    · simp [desiredLoop, h]
    · simp [desiredLoop, h, ih]

theorem permissionLoop_strs (S R : List String) (hp : Bool) :
    permissionLoop (S.map GoValue.str) R hp = some (hp || decide (∃ x ∈ S, x ∈ R)) := by
  induction S generalizing hp with
  | nil => simp [permissionLoop]
  | cons s rest ih =>
    simp only [List.map_cons, permissionLoop, desiredLoop_str, ih]
    by_cases h : s ∈ R <;> cases hp <;> simp [h]

theorem checkScope_strs (tok : Token) (S R : List String)
    (hs : mapIndex tok.Claims "scope" = GoValue.slice (S.map GoValue.str)) :
    checkScope tok R =
      if ∃ x ∈ S, x ∈ R then Outcome.returned none
      else Outcome.returned (some (GoError.errorString
        ("Token does not have '" ++ stringsJoin R "', '" ++ "' scope"))) := by
  simp only [checkScope, hs, permissionLoop_strs]
  by_cases h : ∃ x ∈ S, x ∈ R
  · simp [h]
  · simp [h]

/-! ## The key cache and the retry loop -/

theorem checkTokenFormat_bearer (t : String) (ht : ' ' ∉ t.data) :
    checkTokenFormat ("bearer " ++ t) = (t, none) := by
  show checkTokenFormat ("bearer" ++ " " ++ t) = (t, none)
  rw [checkTokenFormat_of_pair _ "bearer" t (split_of_append "bearer" t (by decide) ht)]
  simp

theorem getUaaTokenKey_cached (env : Env) (a : accessToken) (h : a.uaaPublicKey ≠ "") :
    getUaaTokenKey env a false = ((a.uaaPublicKey, none), a) := by
  simp [getUaaTokenKey, getUaaPublicKey, h]

/-- Claim C1.  With a non-empty cached key `K`, a header `bearer t` (no
space in `t`), a verifier that accepts `t` under `K` with a token whose
scope claim is a list of strings sharing an element with the required
scopes: `DecodeToken` returns nil, calls `FetchKey` zero times and leaves
the cached key equal to `K`. -/
theorem DecodeToken_cached_key_ok (env : Env) (a : accessToken) (t : String)
    (tok : Token) (S R : List String)
    (hK : a.uaaPublicKey ≠ "")
    (ht : ' ' ∉ t.data)
    (hv : ∀ n, env.Parse n t a.uaaPublicKey = Except.ok tok)
    (hs : mapIndex tok.Claims "scope" = GoValue.slice (S.map GoValue.str))
    (hR : ∃ x ∈ S, x ∈ R) :
    (DecodeToken env a ("bearer " ++ t) R).1 = Outcome.returned none ∧
    fetchCount (DecodeToken env a ("bearer " ++ t) R).2.calls = fetchCount a.calls ∧
    (DecodeToken env a ("bearer " ++ t) R).2.uaaPublicKey = a.uaaPublicKey := by
  have hd : DecodeToken env a ("bearer " ++ t) R =
      (Outcome.returned none, ⟨a.uaaPublicKey, a.calls ++
        [Event.parse t a.uaaPublicKey, Event.parse t a.uaaPublicKey]⟩) := by
    simp [DecodeToken, checkTokenFormat_bearer t ht, decodeLoop, getUaaTokenKey_cached, hK, hv,
      checkScope_strs tok S R hs, hR]
  rw [hd]
  simp [fetchCount]

/-- Claim C1 on the sample collaborators: cached key `pemNew`, header
`bearer x`, required scope `b`. -/
theorem DecodeToken_cached_key_ok_witness :
    (DecodeToken sampleEnv ⟨pemNew, []⟩ ("bearer " ++ "x") ["b"]).1 = Outcome.returned none ∧
    fetchCount (DecodeToken sampleEnv ⟨pemNew, []⟩ ("bearer " ++ "x") ["b"]).2.calls =
      fetchCount ([] : List Event) ∧
    (DecodeToken sampleEnv ⟨pemNew, []⟩ ("bearer " ++ "x") ["b"]).2.uaaPublicKey = pemNew :=
  DecodeToken_cached_key_ok sampleEnv ⟨pemNew, []⟩ "x" tokenAB ["a", "b"] ["b"]
    (by decide) (by decide) (fun _ => rfl) rfl (by decide)

theorem getUaaTokenKey_fetched (env : Env) (a : accessToken) (force : Bool) (k : String)
    (hc : a.uaaPublicKey = "" ∨ force = true)
    (hf : env.FetchKey (fetchCount a.calls) = (k, none))
    (hp : env.pemDecode k = true) :
    getUaaTokenKey env a force =
      ((k, none), ⟨k, a.calls ++ [Event.fetch k none, Event.store k]⟩) := by
  simp [getUaaTokenKey, getUaaPublicKey, hc, hf, checkPublicKey, hp]

/-- Claim C2.  Key-rotation recovery: with a non-empty cached key `K0`, a
token that the verifier rejects under `K0` with a signature-invalid
validation error and accepts under `K1`, a next `FetchKey` that returns
`K1`, well-formed PEM, and a scope list holding a required scope:
`DecodeToken` returns nil, has called `FetchKey` exactly once, and the
cached key is `K1` afterwards. -/
theorem DecodeToken_rotation_recovery (env : Env) (a : accessToken) (t K1 : String)
    (e0 : GoError) (tok : Token) (S R : List String)
    (hK : a.uaaPublicKey ≠ "")
    (ht : ' ' ∉ t.data)
    (hv0 : ∀ n, env.Parse n t a.uaaPublicKey = Except.error e0)
    (he0 : matchesError e0 ValidationErrorSignatureInvalid = true)
    (hf : env.FetchKey (fetchCount a.calls) = (K1, none))
    (hp : checkPublicKey env K1 = none)
    (hv1 : ∀ n, env.Parse n t K1 = Except.ok tok)
    (hs : mapIndex tok.Claims "scope" = GoValue.slice (S.map GoValue.str))
    (hR : ∃ x ∈ S, x ∈ R) :
    (DecodeToken env a ("bearer " ++ t) R).1 = Outcome.returned none ∧
    fetchCount (DecodeToken env a ("bearer " ++ t) R).2.calls = fetchCount a.calls + 1 ∧
    (DecodeToken env a ("bearer " ++ t) R).2.uaaPublicKey = K1 := by
  have hp2 : env.pemDecode K1 = true := by
    cases h : env.pemDecode K1
    · simp [checkPublicKey, h] at hp
    · rfl
  have hg : getUaaTokenKey env ⟨a.uaaPublicKey, a.calls ++ [Event.parse t a.uaaPublicKey]⟩ true =
      ((K1, none), ⟨K1, (a.calls ++ [Event.parse t a.uaaPublicKey]) ++
        [Event.fetch K1 none, Event.store K1]⟩) :=
    getUaaTokenKey_fetched env _ true K1 (Or.inr rfl) (by simpa [fetchCount] using hf) hp2
  have hd : DecodeToken env a ("bearer " ++ t) R =
      (Outcome.returned none, ⟨K1, a.calls ++
        [Event.parse t a.uaaPublicKey, Event.fetch K1 none, Event.store K1,
         Event.parse t K1]⟩) := by
    simp [DecodeToken, checkTokenFormat_bearer t ht, decodeLoop, getUaaTokenKey_cached, hK, hv0,
      he0, hg,
      hv1, checkScope_strs tok S R hs, hR]
  rw [hd]
  simp [fetchCount]

/-- Claim C2 on the sample collaborators: cached key `pemOld`, the key
source answers `pemNew`. -/
theorem DecodeToken_rotation_recovery_witness :
    (DecodeToken sampleEnv ⟨pemOld, []⟩ ("bearer " ++ "x") ["b"]).1 = Outcome.returned none ∧
    fetchCount (DecodeToken sampleEnv ⟨pemOld, []⟩ ("bearer " ++ "x") ["b"]).2.calls =
      fetchCount ([] : List Event) + 1 ∧
    (DecodeToken sampleEnv ⟨pemOld, []⟩ ("bearer " ++ "x") ["b"]).2.uaaPublicKey = pemNew :=
  DecodeToken_rotation_recovery sampleEnv ⟨pemOld, []⟩ "x" pemNew
    (GoError.validationError ValidationErrorSignatureInvalid "signature is invalid")
    tokenAB ["a", "b"] ["b"]
    (by decide) (by decide) (fun _ => rfl) (by decide) rfl (by decide) (fun _ => rfl) rfl
    (by decide)

/-- Claim C3.  With a non-empty cached key `K0` and a token that the
verifier rejects with a signature-invalid validation error under `K0` and
under the well-formed PEM key `K1` of the next fetch: `DecodeToken` returns
the verifier's error of the second attempt, and `FetchKey` was called at
most once (here exactly once). -/
theorem DecodeToken_invalid_after_refetch (env : Env) (a : accessToken) (t K1 : String)
    (e0 e1 : GoError) (R : List String)
    (hK : a.uaaPublicKey ≠ "")
    (ht : ' ' ∉ t.data)
    (hv0 : ∀ n, env.Parse n t a.uaaPublicKey = Except.error e0)
    (he0 : matchesError e0 ValidationErrorSignatureInvalid = true)
    (hf : env.FetchKey (fetchCount a.calls) = (K1, none))
    (hp : checkPublicKey env K1 = none)
    (hv1 : ∀ n, env.Parse n t K1 = Except.error e1)
    (he1 : matchesError e1 ValidationErrorSignatureInvalid = true) :
    (DecodeToken env a ("bearer " ++ t) R).1 = Outcome.returned (some e1) ∧
    fetchCount (DecodeToken env a ("bearer " ++ t) R).2.calls ≤ fetchCount a.calls + 1 ∧
    parseCount (DecodeToken env a ("bearer " ++ t) R).2.calls = parseCount a.calls + 2 := by
  have hp2 : env.pemDecode K1 = true := by
    cases h : env.pemDecode K1
    · simp [checkPublicKey, h] at hp
    · rfl
  have hg : getUaaTokenKey env ⟨a.uaaPublicKey, a.calls ++ [Event.parse t a.uaaPublicKey]⟩ true =
      ((K1, none), ⟨K1, (a.calls ++ [Event.parse t a.uaaPublicKey]) ++
        [Event.fetch K1 none, Event.store K1]⟩) :=
    getUaaTokenKey_fetched env _ true K1 (Or.inr rfl) (by simpa [fetchCount] using hf) hp2
  have hd : DecodeToken env a ("bearer " ++ t) R =
      (Outcome.returned (some e1), ⟨K1, a.calls ++
        [Event.parse t a.uaaPublicKey, Event.fetch K1 none, Event.store K1,
         Event.parse t K1]⟩) := by
    simp [DecodeToken, checkTokenFormat_bearer t ht, decodeLoop, getUaaTokenKey_cached, hK, hv0,
      he0, hg,
      hv1, he1]
  rw [hd]
  simp [fetchCount, parseCount]

/-- Claim C3 on the sample collaborators: the string `y` is signed by
neither sample key. -/
theorem DecodeToken_invalid_after_refetch_witness :
    (DecodeToken sampleEnv ⟨pemOld, []⟩ ("bearer " ++ "y") ["b"]).1 =
      Outcome.returned (some (GoError.validationError ValidationErrorSignatureInvalid
        "signature is invalid")) ∧
    fetchCount (DecodeToken sampleEnv ⟨pemOld, []⟩ ("bearer " ++ "y") ["b"]).2.calls ≤
      fetchCount ([] : List Event) + 1 ∧
    parseCount (DecodeToken sampleEnv ⟨pemOld, []⟩ ("bearer " ++ "y") ["b"]).2.calls =
      parseCount ([] : List Event) + 2 :=
  DecodeToken_invalid_after_refetch sampleEnv ⟨pemOld, []⟩ "y" pemNew
    (GoError.validationError ValidationErrorSignatureInvalid "signature is invalid")
    (GoError.validationError ValidationErrorSignatureInvalid "signature is invalid")
    ["b"]
    (by decide) (by decide) (fun _ => rfl) (by decide) rfl (by decide) (fun _ => rfl)
    (by decide)

theorem DecodeToken_verified (env : Env) (a a1 : accessToken) (h t : String) (tok : Token)
    (R : List String)
    (hfmt : checkTokenFormat h = (t, none))
    (hv : decodeLoop env t 2 false none none a = (LoopExit.done (some tok) none, a1)) :
    DecodeToken env a h R = (checkScope tok R, a1) := by
  simp [DecodeToken, hfmt, hv]

/-- Claim C4, as amended.  For every header whose token is successfully
verified (the retry loop ends with a token and a nil error) with a scope
claim that is a list of strings, possibly empty, `DecodeToken` called with
zero required scopes returns the error `Token does not have '' scope`: no
token is authorized when zero scopes are required. -/
theorem DecodeToken_no_required_scope (env : Env) (a a1 : accessToken) (h t : String)
    (tok : Token) (S : List String)
    (hfmt : checkTokenFormat h = (t, none))
    (hv : decodeLoop env t 2 false none none a = (LoopExit.done (some tok) none, a1))
    (hs : mapIndex tok.Claims "scope" = GoValue.slice (S.map GoValue.str)) :
    (DecodeToken env a h []).1 =
      Outcome.returned (some (GoError.errorString "Token does not have '' scope")) := by
  rw [DecodeToken_verified env a a1 h t tok [] hfmt hv, checkScope_strs tok S [] hs]
  simp [stringsJoin]

/-- Claim C4, as amended, on the sample collaborators. -/
theorem DecodeToken_no_required_scope_witness :
    (DecodeToken sampleEnv ⟨pemNew, []⟩ "bearer x" []).1 =
      Outcome.returned (some (GoError.errorString "Token does not have '' scope")) :=
  DecodeToken_no_required_scope sampleEnv ⟨pemNew, []⟩
    ⟨pemNew, [Event.parse "x" pemNew, Event.parse "x" pemNew]⟩ "bearer x" "x" tokenAB
    ["a", "b"] (by decide) rfl rfl

/-- Claim C4 as stated fails: the token `x` is verified under the cached
key with the scope list `["a", "b"]`, and `DecodeToken` with zero required
scopes returns an error, not nil. -/
theorem DecodeToken_no_required_scope_counterexample :
    checkTokenFormat "bearer x" = ("x", none) ∧
    decodeLoop sampleEnv "x" 2 false none none ⟨pemNew, []⟩ =
      (LoopExit.done (some tokenAB) none,
        ⟨pemNew, [Event.parse "x" pemNew, Event.parse "x" pemNew]⟩) ∧
    mapIndex tokenAB.Claims "scope" = GoValue.slice (["a", "b"].map GoValue.str) ∧
    (DecodeToken sampleEnv ⟨pemNew, []⟩ "bearer x" []).1 ≠ Outcome.returned none := by
  refine ⟨by decide, rfl, rfl, by decide⟩

/-- Claim C5.  For a successfully verified token (the retry loop ends with
a token and a nil error) whose scope claim is a list `S` of strings and any
list `R` of required scopes, `DecodeToken` returns nil if and only if some
element of `S` is an element of `R`, a condition that ignores order and
multiplicity; otherwise it returns the error `Token does not have '` ,
the elements of `R` joined by `', '` , `' scope`. -/
theorem DecodeToken_scope_check (env : Env) (a a1 : accessToken) (h t : String)
    (tok : Token) (S R : List String)
    (hfmt : checkTokenFormat h = (t, none))
    (hv : decodeLoop env t 2 false none none a = (LoopExit.done (some tok) none, a1))
    (hs : mapIndex tok.Claims "scope" = GoValue.slice (S.map GoValue.str)) :
    ((DecodeToken env a h R).1 = Outcome.returned none ↔ ∃ x ∈ S, ∃ y ∈ R, x = y) ∧
    ((¬ ∃ x ∈ S, ∃ y ∈ R, x = y) →
      (DecodeToken env a h R).1 = Outcome.returned (some (GoError.errorString
        ("Token does not have '" ++ stringsJoin R "', '" ++ "' scope")))) := by
  rw [DecodeToken_verified env a a1 h t tok R hfmt hv, checkScope_strs tok S R hs]
  by_cases hx : ∃ x ∈ S, x ∈ R
  · simp [hx]
  · have hx2 : ¬ ∃ x ∈ S, ∃ y ∈ R, x = y := by simpa using hx
    rw [if_neg hx]
    exact ⟨⟨fun hc => by simp at hc, fun hc => absurd hc hx2⟩, fun _ => rfl⟩

/-- Claim C5 on its two examples: the scope list `["a", "b"]` against the
required scopes `["c", "d"]` and against `["b"]`. -/
theorem DecodeToken_scope_check_witness :
    (DecodeToken sampleEnv ⟨pemNew, []⟩ "bearer x" ["c", "d"]).1 =
      Outcome.returned (some (GoError.errorString "Token does not have 'c', 'd' scope")) ∧
    (DecodeToken sampleEnv ⟨pemNew, []⟩ "bearer x" ["b"]).1 = Outcome.returned none :=
  ⟨(DecodeToken_scope_check sampleEnv ⟨pemNew, []⟩
      ⟨pemNew, [Event.parse "x" pemNew, Event.parse "x" pemNew]⟩ "bearer x" "x" tokenAB
      ["a", "b"] ["c", "d"] (by decide) rfl rfl).2 (by decide),
   (DecodeToken_scope_check sampleEnv ⟨pemNew, []⟩
      ⟨pemNew, [Event.parse "x" pemNew, Event.parse "x" pemNew]⟩ "bearer x" "x" tokenAB
      ["a", "b"] ["b"] (by decide) rfl rfl).1.2 (by decide)⟩

/-- Claim C7 fails on the code.  A verified token without a scope claim, one
whose scope claim is a string, and one whose scope list holds a number each
make `DecodeToken` panic on a type assertion instead of returning an
error. -/
theorem DecodeToken_scope_claim_panics :
    (DecodeToken sampleEnv ⟨pemNew, []⟩ "bearer noscope" ["a"]).1 = Outcome.panicked ∧
    (DecodeToken sampleEnv ⟨pemNew, []⟩ "bearer strscope" ["a"]).1 = Outcome.panicked ∧
    (DecodeToken sampleEnv ⟨pemNew, []⟩ "bearer mixed" ["a"]).1 = Outcome.panicked := by
  refine ⟨by decide, by decide, by decide⟩

/-- Claim C10.  With a non-empty cached key `K` and a token for which the
first verification returns an error that is not a signature-invalid
validation error, `DecodeToken` returns that error, makes no `FetchKey`
call, verifies once only, and leaves the cached key equal to `K`. -/
theorem DecodeToken_terminal_error (env : Env) (a : accessToken) (h t : String)
    (e : GoError) (R : List String)
    (hK : a.uaaPublicKey ≠ "")
    (hfmt : checkTokenFormat h = (t, none))
    (hv : env.Parse (parseCount a.calls) t a.uaaPublicKey = Except.error e)
    (he : matchesError e ValidationErrorSignatureInvalid = false) :
    (DecodeToken env a h R).1 = Outcome.returned (some e) ∧
    fetchCount (DecodeToken env a h R).2.calls = fetchCount a.calls ∧
    parseCount (DecodeToken env a h R).2.calls = parseCount a.calls + 1 ∧
    (DecodeToken env a h R).2.uaaPublicKey = a.uaaPublicKey := by
  have hd : DecodeToken env a h R =
      (Outcome.returned (some e), ⟨a.uaaPublicKey, a.calls ++ [Event.parse t a.uaaPublicKey]⟩) := by
    simp [DecodeToken, hfmt, decodeLoop, getUaaTokenKey_cached, hK, hv, he]
  rw [hd]
  simp [fetchCount, parseCount]

/-- Claim C10 on the sample collaborators: an expired token, cached key
`pemNew`. -/
theorem DecodeToken_terminal_error_witness :
    (DecodeToken sampleEnv ⟨pemNew, []⟩ "bearer expired" ["a"]).1 =
      Outcome.returned (some (GoError.validationError ValidationErrorExpired
        "token is expired")) ∧
    fetchCount (DecodeToken sampleEnv ⟨pemNew, []⟩ "bearer expired" ["a"]).2.calls =
      fetchCount ([] : List Event) ∧
    parseCount (DecodeToken sampleEnv ⟨pemNew, []⟩ "bearer expired" ["a"]).2.calls =
      parseCount ([] : List Event) + 1 ∧
    (DecodeToken sampleEnv ⟨pemNew, []⟩ "bearer expired" ["a"]).2.uaaPublicKey = pemNew :=
  DecodeToken_terminal_error sampleEnv ⟨pemNew, []⟩ "bearer expired" "expired"
    (GoError.validationError ValidationErrorExpired "token is expired") ["a"]
    (by decide) (by decide) rfl (by decide)

/-- The four ways `getUaaTokenKey` can go: the cached key is used; the
fetch fails; the fetched key is not PEM; the fetched key is published. -/
theorem getUaaTokenKey_cases (env : Env) (a : accessToken) (force : Bool) :
    getUaaTokenKey env a force = ((a.uaaPublicKey, none), a) ∨
    (∃ e, (env.FetchKey (fetchCount a.calls)).2 = some e ∧
      getUaaTokenKey env a force =
        (((env.FetchKey (fetchCount a.calls)).1, some e),
          ⟨a.uaaPublicKey,
            a.calls ++ [Event.fetch (env.FetchKey (fetchCount a.calls)).1 (some e)]⟩)) ∨
    ((env.FetchKey (fetchCount a.calls)).2 = none ∧
      env.pemDecode (env.FetchKey (fetchCount a.calls)).1 = false ∧
      getUaaTokenKey env a force =
        (("", some (GoError.errorString "Public uaa token must be PEM encoded")),
          ⟨a.uaaPublicKey,
            a.calls ++ [Event.fetch (env.FetchKey (fetchCount a.calls)).1 none]⟩)) ∨
    ((env.FetchKey (fetchCount a.calls)).2 = none ∧
      env.pemDecode (env.FetchKey (fetchCount a.calls)).1 = true ∧
      getUaaTokenKey env a force =
        (((env.FetchKey (fetchCount a.calls)).1, none),
          ⟨(env.FetchKey (fetchCount a.calls)).1,
            a.calls ++ [Event.fetch (env.FetchKey (fetchCount a.calls)).1 none,
              Event.store (env.FetchKey (fetchCount a.calls)).1]⟩)) := by
  by_cases hc : getUaaPublicKey a = "" ∨ force = true
  · right
    cases hr : (env.FetchKey (fetchCount a.calls)).2 with
    | some e =>
      left
      exact ⟨e, rfl, by simp [getUaaTokenKey, hc, hr]⟩
    | none =>
      right
      cases hp : env.pemDecode (env.FetchKey (fetchCount a.calls)).1
      · left
        exact ⟨rfl, rfl, by simp [getUaaTokenKey, hc, hr, checkPublicKey, hp]⟩
      · right
        exact ⟨rfl, rfl, by simp [getUaaTokenKey, hc, hr, checkPublicKey, hp]⟩
  · left
    have hc2 : ¬ (a.uaaPublicKey = "" ∨ force = true) := hc
    simp only [getUaaTokenKey, getUaaPublicKey, if_neg hc2]

/-- A fetch that fails, or that returns a key that is not PEM, ends the
retry loop at once, whatever the number of iterations left: the loop
returns the error, the fetch is the last step, and the cached key is the
one cached before the fetch. -/
theorem decodeLoop_failed_fetch (env : Env) (t : String) (k : Nat) :
    ∀ (force : Bool) (tok : Option Token) (err : Option GoError) (a : accessToken)
      (n : Nat) (e : GoError),
      fetchCount a.calls ≤ n →
      n < fetchCount (decodeLoop env t k force tok err a).2.calls →
      ((env.FetchKey n).2 = some e ∨
        ((env.FetchKey n).2 = none ∧ env.pemDecode (env.FetchKey n).1 = false ∧
          e = GoError.errorString "Public uaa token must be PEM encoded")) →
      (decodeLoop env t k force tok err a).1 = LoopExit.ret (some e) ∧
      ∃ pre : List Event,
        (decodeLoop env t k force tok err a).2.calls =
          a.calls ++ pre ++ [Event.fetch (env.FetchKey n).1 (env.FetchKey n).2] ∧
        (decodeLoop env t k force tok err a).2.uaaPublicKey =
          cacheAfter a.uaaPublicKey pre := by
  induction k with
  | zero =>
    intro force tok err a n e hn1 hn2 hf
    simp [decodeLoop] at hn2
    omega
  | succ k ih =>
    intro force tok err a n e hn1 hn2 hf
    rw [decodeLoop] at hn2 ⊢
    rcases getUaaTokenKey_cases env a force with hg | ⟨e1, he1, hg⟩ | ⟨h1, h2, hg⟩ |
      ⟨h1, h2, hg⟩
    · simp only [hg] at hn2 ⊢
      cases hp : env.Parse (parseCount a.calls) t a.uaaPublicKey with
      | error e2 =>
        simp only [hp] at hn2 ⊢
        by_cases hm : matchesError e2 ValidationErrorSignatureInvalid = true
        · simp only [hm, if_true] at hn2 ⊢
          obtain ⟨r1, pre, r2, r3⟩ := ih true none (some e2)
            ⟨a.uaaPublicKey, a.calls ++ [Event.parse t a.uaaPublicKey]⟩ n e
            (by simpa [fetchCount] using hn1) hn2 hf
          refine ⟨r1, Event.parse t a.uaaPublicKey :: pre, ?_, ?_⟩
          · rw [r2]; simp
          · rw [r3]; simp [cacheAfter]
        · simp only [hm] at hn2
          simp [fetchCount] at hn2
          omega
      | ok tk =>
        simp only [hp] at hn2 ⊢
        obtain ⟨r1, pre, r2, r3⟩ := ih force (some tk) none
          ⟨a.uaaPublicKey, a.calls ++ [Event.parse t a.uaaPublicKey]⟩ n e
          (by simpa [fetchCount] using hn1) hn2 hf
        refine ⟨r1, Event.parse t a.uaaPublicKey :: pre, ?_, ?_⟩
        · rw [r2]; simp
        · rw [r3]; simp [cacheAfter]
    · simp only [hg] at hn2 ⊢
      simp [fetchCount] at hn2
      have hn : n = fetchCount a.calls := by omega
      subst hn
      rcases hf with hf | ⟨hf, _, _⟩
      · rw [he1] at hf
        cases hf
        exact ⟨rfl, [], by simp [he1], rfl⟩
      · rw [he1] at hf
        cases hf
    · simp only [hg] at hn2 ⊢
      simp [fetchCount] at hn2
      have hn : n = fetchCount a.calls := by omega
      subst hn
      rcases hf with hf | ⟨_, _, hf⟩
      · rw [h1] at hf
        cases hf
      · subst hf
        exact ⟨rfl, [], by simp [h1], rfl⟩
    · simp only [hg] at hn2 ⊢
      have hne : n ≠ fetchCount a.calls := by
        intro hn
        subst hn
        rcases hf with hf | ⟨_, hf, _⟩
        · rw [h1] at hf
          cases hf
        · rw [h2] at hf
          cases hf
      have hn3 : fetchCount (a.calls ++ [Event.fetch (env.FetchKey (fetchCount a.calls)).1 none,
          Event.store (env.FetchKey (fetchCount a.calls)).1]) ≤ n := by
        simp [fetchCount]
        omega
      cases hp : env.Parse (parseCount (a.calls ++
          [Event.fetch (env.FetchKey (fetchCount a.calls)).1 none,
            Event.store (env.FetchKey (fetchCount a.calls)).1])) t
          (env.FetchKey (fetchCount a.calls)).1 with
      | error e2 =>
        simp only [hp] at hn2 ⊢
        by_cases hm : matchesError e2 ValidationErrorSignatureInvalid = true
        · simp only [hm, if_true] at hn2 ⊢
          obtain ⟨r1, pre, r2, r3⟩ := ih true none (some e2)
            ⟨(env.FetchKey (fetchCount a.calls)).1,
              a.calls ++ [Event.fetch (env.FetchKey (fetchCount a.calls)).1 none,
                Event.store (env.FetchKey (fetchCount a.calls)).1] ++
              [Event.parse t (env.FetchKey (fetchCount a.calls)).1]⟩ n e
            (by simpa [fetchCount] using hn3) hn2 hf
          refine ⟨r1, Event.fetch (env.FetchKey (fetchCount a.calls)).1 none ::
            Event.store (env.FetchKey (fetchCount a.calls)).1 ::
            Event.parse t (env.FetchKey (fetchCount a.calls)).1 :: pre, ?_, ?_⟩
          · rw [r2]; simp
          · rw [r3]; simp [cacheAfter]
        · simp only [hm] at hn2
          simp [fetchCount] at hn2
          omega
      | ok tk =>
        simp only [hp] at hn2 ⊢
        obtain ⟨r1, pre, r2, r3⟩ := ih force (some tk) none
          ⟨(env.FetchKey (fetchCount a.calls)).1,
            a.calls ++ [Event.fetch (env.FetchKey (fetchCount a.calls)).1 none,
              Event.store (env.FetchKey (fetchCount a.calls)).1] ++
            [Event.parse t (env.FetchKey (fetchCount a.calls)).1]⟩ n e
          (by simpa [fetchCount] using hn3) hn2 hf
        refine ⟨r1, Event.fetch (env.FetchKey (fetchCount a.calls)).1 none ::
          Event.store (env.FetchKey (fetchCount a.calls)).1 ::
          Event.parse t (env.FetchKey (fetchCount a.calls)).1 :: pre, ?_, ?_⟩
        · rw [r2]; simp
        · rw [r3]; simp [cacheAfter]

/-- The state `DecodeToken` ends in: the one it started in when the header
is rejected, the one the retry loop ends in otherwise. -/
theorem DecodeToken_state (env : Env) (a : accessToken) (h : String) (R : List String) :
    (DecodeToken env a h R).2 =
      match (checkTokenFormat h).2 with
      | some _ => a
      | none => (decodeLoop env (checkTokenFormat h).1 2 false none none a).2 := by
  unfold DecodeToken
  cases hfmt : (checkTokenFormat h).2 with
  | some e0 => simp only [hfmt]
  | none =>
    simp only [hfmt]
    cases hl : decodeLoop env (checkTokenFormat h).1 2 false none none a with
    | mk x a1 =>
      cases x with
      | ret err => rfl
      | done token err => cases err <;> cases token <;> rfl

theorem DecodeToken_of_ret (env : Env) (a : accessToken) (h : String) (R : List String)
    (err : Option GoError)
    (hfmt : (checkTokenFormat h).2 = none)
    (hl : (decodeLoop env (checkTokenFormat h).1 2 false none none a).1 = LoopExit.ret err) :
    (DecodeToken env a h R).1 = Outcome.returned err := by
  unfold DecodeToken
  simp only [hfmt]
  split
  · rename_i hx
    rw [hx] at hl
    cases hl
    rfl
  · rename_i hx
    rw [hx] at hl
    cases hl

/-- What a failed fetch, or a fetched key that is not PEM, does to
`DecodeToken`. -/
theorem DecodeToken_failed_fetch (env : Env) (a : accessToken) (h : String)
    (R : List String) (n : Nat) (e : GoError)
    (hn1 : fetchCount a.calls ≤ n)
    (hn2 : n < fetchCount (DecodeToken env a h R).2.calls)
    (hf : (env.FetchKey n).2 = some e ∨
        ((env.FetchKey n).2 = none ∧ env.pemDecode (env.FetchKey n).1 = false ∧
          e = GoError.errorString "Public uaa token must be PEM encoded")) :
    (DecodeToken env a h R).1 = Outcome.returned (some e) ∧
    ∃ pre : List Event,
      (DecodeToken env a h R).2.calls =
        a.calls ++ pre ++ [Event.fetch (env.FetchKey n).1 (env.FetchKey n).2] ∧
      (DecodeToken env a h R).2.uaaPublicKey = cacheAfter a.uaaPublicKey pre := by
  rw [DecodeToken_state] at hn2 ⊢
  cases hfmt : (checkTokenFormat h).2 with
  | some e0 =>
    simp only [hfmt] at hn2
    omega
  | none =>
    simp only [hfmt] at hn2 ⊢
    obtain ⟨r1, r2⟩ := decodeLoop_failed_fetch env (checkTokenFormat h).1 2 false none none a n e
      hn1 hn2 hf
    exact ⟨DecodeToken_of_ret env a h R (some e) hfmt r1, r2⟩

/-- Claim C8.  If a `FetchKey` call made during `DecodeToken` (the `n`-th
call of the key source, `n` from the number of calls made before up to the
number made by the end) returns an error `e`, then `DecodeToken` returns
`e`, that call is the last step of the execution (no fetch and no
verification follows), and the cached key at the end is the one cached
before that fetch. -/
theorem DecodeToken_fetch_error (env : Env) (a : accessToken) (h : String)
    (R : List String) (n : Nat) (e : GoError)
    (hn1 : fetchCount a.calls ≤ n)
    (hn2 : n < fetchCount (DecodeToken env a h R).2.calls)
    (hf : (env.FetchKey n).2 = some e) :
    (DecodeToken env a h R).1 = Outcome.returned (some e) ∧
    ∃ pre : List Event,
      (DecodeToken env a h R).2.calls =
        a.calls ++ pre ++ [Event.fetch (env.FetchKey n).1 (some e)] ∧
      (DecodeToken env a h R).2.uaaPublicKey = cacheAfter a.uaaPublicKey pre := by
  have hr := DecodeToken_failed_fetch env a h R n e hn1 hn2 (Or.inl hf)
  rw [hf] at hr
  exact hr

/-- Claim C9.  If a `FetchKey` call made during `DecodeToken` succeeds with
a key on which `checkPublicKey` fails, then `DecodeToken` returns the error
`Public uaa token must be PEM encoded`, that call is the last step of the
execution (the key is not stored, no verification uses it, no fetch
follows), and the cached key at the end is the one cached before that
fetch. -/
theorem DecodeToken_fetched_key_not_pem (env : Env) (a : accessToken) (h : String)
    (R : List String) (n : Nat)
    (hn1 : fetchCount a.calls ≤ n)
    (hn2 : n < fetchCount (DecodeToken env a h R).2.calls)
    (hf : (env.FetchKey n).2 = none)
    (hp : checkPublicKey env (env.FetchKey n).1 ≠ none) :
    (DecodeToken env a h R).1 =
      Outcome.returned (some (GoError.errorString "Public uaa token must be PEM encoded")) ∧
    ∃ pre : List Event,
      (DecodeToken env a h R).2.calls =
        a.calls ++ pre ++ [Event.fetch (env.FetchKey n).1 none] ∧
      (DecodeToken env a h R).2.uaaPublicKey = cacheAfter a.uaaPublicKey pre := by
  have hp2 : env.pemDecode (env.FetchKey n).1 = false := by
    cases hd : env.pemDecode (env.FetchKey n).1
    · rfl
    · simp [checkPublicKey, hd] at hp
  have hr := DecodeToken_failed_fetch env a h R n _ hn1 hn2 (Or.inr ⟨hf, hp2, rfl⟩)
  rw [hf] at hr
  exact hr

/-- Claim C8 on the sample collaborators: empty cache, the first fetch
publishes `pemNew`, the token `y` fails on the signature, and the forced
second fetch fails. -/
theorem DecodeToken_fetch_error_witness :
    (DecodeToken sampleEnv ⟨"", []⟩ "bearer y" ["a"]).1 =
      Outcome.returned (some (GoError.otherError "connection refused")) ∧
    ∃ pre : List Event,
      (DecodeToken sampleEnv ⟨"", []⟩ "bearer y" ["a"]).2.calls =
        [] ++ pre ++ [Event.fetch (sampleEnv.FetchKey 1).1
          (some (GoError.otherError "connection refused"))] ∧
      (DecodeToken sampleEnv ⟨"", []⟩ "bearer y" ["a"]).2.uaaPublicKey = cacheAfter "" pre :=
  DecodeToken_fetch_error sampleEnv ⟨"", []⟩ "bearer y" ["a"] 1
    (GoError.otherError "connection refused") (by decide) (by decide) rfl

/-- Claim C9 on the sample collaborators: empty cache and a key source that
answers `not a key`. -/
theorem DecodeToken_fetched_key_not_pem_witness :
    (DecodeToken sampleEnvBadKey ⟨"", []⟩ "bearer x" ["a"]).1 =
      Outcome.returned (some (GoError.errorString "Public uaa token must be PEM encoded")) ∧
    ∃ pre : List Event,
      (DecodeToken sampleEnvBadKey ⟨"", []⟩ "bearer x" ["a"]).2.calls =
        [] ++ pre ++ [Event.fetch (sampleEnvBadKey.FetchKey 0).1 none] ∧
      (DecodeToken sampleEnvBadKey ⟨"", []⟩ "bearer x" ["a"]).2.uaaPublicKey =
        cacheAfter "" pre :=
  DecodeToken_fetched_key_not_pem sampleEnvBadKey ⟨"", []⟩ "bearer x" ["a"] 0
    (by decide) (by decide) rfl (by decide)

/-! ## The health check, the pass-through variant and the error classes -/

/-- Claim C11, as amended.  `CheckPublicToken` has one kind of failure: it
returns nil exactly when the cached key decodes as a PEM block, and
otherwise, for the empty cache as for any other key that is not PEM, the
one error `Public uaa token must be PEM encoded`; it makes no call and
leaves the cache as it is. -/
theorem CheckPublicToken_spec (env : Env) (a : accessToken) :
    (CheckPublicToken env a).2 = a ∧
    ((CheckPublicToken env a).1 = none ↔ env.pemDecode a.uaaPublicKey = true) ∧
    (CheckPublicToken env a).1 =
      if env.pemDecode a.uaaPublicKey = true then none
      else some (GoError.errorString "Public uaa token must be PEM encoded") := by
  cases hp : env.pemDecode a.uaaPublicKey <;>
    simp [CheckPublicToken, checkPublicKey, getUaaPublicKey, hp]

/-- Claim C11 as stated fails: the empty cache and a cached key that is not
PEM get the same error from `CheckPublicToken`. -/
theorem CheckPublicToken_spec_counterexample :
    (CheckPublicToken sampleEnv ⟨"", []⟩).1 =
      some (GoError.errorString "Public uaa token must be PEM encoded") ∧
    (CheckPublicToken sampleEnv ⟨"not a key", []⟩).1 =
      some (GoError.errorString "Public uaa token must be PEM encoded") ∧
    (CheckPublicToken sampleEnv ⟨"", []⟩).1 =
      (CheckPublicToken sampleEnv ⟨"not a key", []⟩).1 := by
  refine ⟨by decide, by decide, by decide⟩

/-- Claim C13.  The pass-through variant always succeeds: for every header
and every list of required scopes `NullToken.DecodeToken` returns nil, and
`NullToken.CheckPublicToken` returns nil. -/
theorem NullToken_always_succeeds (n : NullToken) (h : String) (R : List String) :
    NullToken.DecodeToken n h R = none ∧ NullToken.CheckPublicToken n = none :=
  ⟨rfl, rfl⟩

theorem and_two_pow_eq_iff (x b : Nat) : x &&& 2 ^ b = 2 ^ b ↔ x.testBit b = true := by
  constructor
  · intro h
    have h2 := congrArg (fun y => y.testBit b) h
    simpa [Nat.testBit_two_pow_self] using h2
  · intro h
    apply Nat.eq_of_testBit_eq
    intro i
    by_cases hi : b = i
    · subst hi
      simp [Nat.testBit_two_pow_self, h]
    · simp [Nat.testBit_two_pow, hi]

theorem matchesError_two_pow (errs : Nat) (text : String) (b : Nat) (hb : b < 32) :
    matchesError (GoError.validationError errs text) (2 ^ b) = errs.testBit b := by
  have h := and_two_pow_eq_iff (errs % 2 ^ 32) b
  rw [Nat.testBit_mod_two_pow] at h
  simp only [hb, decide_True, Bool.true_and] at h
  cases ht : errs.testBit b
  · simp only [matchesError, decide_eq_false_iff_not]
    intro hc
    rw [h, ht] at hc
    cases hc
  · simp only [matchesError, decide_eq_true_eq]
    exact h.2 ht

/-- Claim C16.  `matchesError err ValidationErrorSignatureInvalid` is true
if and only if `err` is a `ValidationError` whose `Errors` mask has the
signature-invalid bit (bit 2) set, whatever its other bits: it is true
with the expired bit set as well, false for a `ValidationError` without
the bit, and false for every error of another type. -/
theorem matchesError_signature_invalid (err : GoError) :
    (matchesError err ValidationErrorSignatureInvalid = true ↔
      ∃ errs text, err = GoError.validationError errs text ∧ errs.testBit 2 = true) ∧
    (∀ errs text, errs.testBit 2 = false →
      matchesError (GoError.validationError errs text) ValidationErrorSignatureInvalid =
        false) ∧
    (∀ text, matchesError (GoError.validationError
        (ValidationErrorSignatureInvalid ||| ValidationErrorExpired) text)
        ValidationErrorSignatureInvalid = true) ∧
    (∀ s, matchesError (GoError.errorString s) ValidationErrorSignatureInvalid = false) ∧
    (∀ s, matchesError (GoError.otherError s) ValidationErrorSignatureInvalid = false) := by
  have hc : ValidationErrorSignatureInvalid = 2 ^ 2 := rfl
  refine ⟨?_, ?_, ?_, fun _ => rfl, fun _ => rfl⟩
  · cases err with
    | errorString s => simp [matchesError]
    | otherError s => simp [matchesError]
    | validationError errs text =>
      rw [hc, matchesError_two_pow errs text 2 (by decide)]
      simp
  · intro errs text hb
    rw [hc, matchesError_two_pow errs text 2 (by decide), hb]
  · intro text
    rw [hc, matchesError_two_pow _ text 2 (by decide)]
    decide

/-- Claim C16 on an expired token: its mask lacks the signature-invalid
bit, so the error is terminal. -/
theorem matchesError_signature_invalid_witness :
    matchesError (GoError.validationError ValidationErrorExpired "token is expired")
      ValidationErrorSignatureInvalid = false :=
  (matchesError_signature_invalid (GoError.otherError "")).2.1 ValidationErrorExpired
    "token is expired" (by decide)

/-- Claim C17.  A header on which `checkTokenFormat` fails is rejected before
any key or verifier activity: `DecodeToken` returns the format error and
the state, cached key and record of calls, is the one it started in,
whatever the cache and the required scopes. -/
theorem DecodeToken_format_error (env : Env) (a : accessToken) (h : String)
    (R : List String) (e : GoError)
    (hf : (checkTokenFormat h).2 = some e) :
    DecodeToken env a h R = (Outcome.returned (some e), a) := by
  simp [DecodeToken, hf]

/-- Claim C17 on the sample collaborators: the header `Bearer x` on an
empty cache. -/
theorem DecodeToken_format_error_witness :
    DecodeToken sampleEnv ⟨"", []⟩ "Bearer x" ["a"] =
      (Outcome.returned (some (GoError.errorString "Invalid token type: Bearer")),
        ⟨"", []⟩) :=
  DecodeToken_format_error sampleEnv ⟨"", []⟩ "Bearer x" ["a"]
    (GoError.errorString "Invalid token type: Bearer") (by decide)

/-! ## Bounds and the cache invariant -/

/-- What one call of `getUaaTokenKey` adds to the record and does to the
cache: no verification, at most one fetch, and the cache is kept or set to
a fetched key that passed `checkPublicKey`. -/
theorem getUaaTokenKey_trace (env : Env) (a : accessToken) (force : Bool) :
    parseCount (getUaaTokenKey env a force).2.calls = parseCount a.calls ∧
    fetchCount a.calls ≤ fetchCount (getUaaTokenKey env a force).2.calls ∧
    fetchCount (getUaaTokenKey env a force).2.calls ≤ fetchCount a.calls + 1 ∧
    ((getUaaTokenKey env a force).2.uaaPublicKey = a.uaaPublicKey ∨
      (fetchCount (getUaaTokenKey env a force).2.calls = fetchCount a.calls + 1 ∧
        (env.FetchKey (fetchCount a.calls)).1 = (getUaaTokenKey env a force).2.uaaPublicKey ∧
        (env.FetchKey (fetchCount a.calls)).2 = none ∧
        env.pemDecode (getUaaTokenKey env a force).2.uaaPublicKey = true)) := by
  rcases getUaaTokenKey_cases env a force with hg | ⟨e1, _, hg⟩ | ⟨_, _, hg⟩ | ⟨h1, h2, hg⟩
  · simp [hg]
  · simp [hg, fetchCount, parseCount]
  · simp [hg, fetchCount, parseCount]
  · simp [hg, fetchCount, parseCount, h1, h2]

/-- The retry loop with `k` iterations left makes at most `k` fetches and at
most `k` verifications. -/
theorem decodeLoop_counts (env : Env) (t : String) (k : Nat) :
    ∀ (force : Bool) (tok : Option Token) (err : Option GoError) (a : accessToken),
      fetchCount (decodeLoop env t k force tok err a).2.calls ≤ fetchCount a.calls + k ∧
      parseCount (decodeLoop env t k force tok err a).2.calls ≤ parseCount a.calls + k := by
  induction k with
  | zero =>
    intro force tok err a
    simp [decodeLoop]
  | succ k ih =>
    intro force tok err a
    obtain ⟨g1, _, g3, _⟩ := getUaaTokenKey_trace env a force
    rw [decodeLoop]
    cases hr : (getUaaTokenKey env a force).1.2 with
    | some e =>
      simp only [hr]
      constructor <;> omega
    | none =>
      simp only [hr]
      cases hp : env.Parse (parseCount (getUaaTokenKey env a force).2.calls) t
          (getUaaTokenKey env a force).1.1 with
      | error e2 =>
        simp only [hp]
        by_cases hm : matchesError e2 ValidationErrorSignatureInvalid = true
        · simp only [hm, if_true]
          obtain ⟨i1, i2⟩ := ih true none (some e2)
            ⟨(getUaaTokenKey env a force).2.uaaPublicKey,
              (getUaaTokenKey env a force).2.calls ++
                [Event.parse t (getUaaTokenKey env a force).1.1]⟩
          simp [fetchCount, parseCount] at i1 i2
          constructor <;> omega
        · simp only [hm]
          simp [fetchCount, parseCount]
          constructor <;> omega
      | ok tk =>
        simp only [hp]
        obtain ⟨i1, i2⟩ := ih force (some tk) none
          ⟨(getUaaTokenKey env a force).2.uaaPublicKey,
            (getUaaTokenKey env a force).2.calls ++
              [Event.parse t (getUaaTokenKey env a force).1.1]⟩
        simp [fetchCount, parseCount] at i1 i2
        constructor <;> omega

/-- With a non-empty cached key the first iteration fetches nothing, so the
loop of `DecodeToken` makes at most one fetch. -/
theorem decodeLoop_cached_fetches (env : Env) (t : String) (a : accessToken)
    (hK : a.uaaPublicKey ≠ "") :
    fetchCount (decodeLoop env t 2 false none none a).2.calls ≤ fetchCount a.calls + 1 := by
  rw [decodeLoop]
  simp only [getUaaTokenKey_cached env a hK]
  cases hp : env.Parse (parseCount a.calls) t a.uaaPublicKey with
  | error e2 =>
    simp only [hp]
    by_cases hm : matchesError e2 ValidationErrorSignatureInvalid = true
    · simp only [hm, if_true]
      have i1 := (decodeLoop_counts env t 1 true none (some e2)
        ⟨a.uaaPublicKey, a.calls ++ [Event.parse t a.uaaPublicKey]⟩).1
      simpa [fetchCount] using i1
    · simp only [hm]
      simp [fetchCount]
  | ok tk =>
    simp only [hp]
    have i1 := (decodeLoop_counts env t 1 false (some tk) none
      ⟨a.uaaPublicKey, a.calls ++ [Event.parse t a.uaaPublicKey]⟩).1
    simpa [fetchCount] using i1

/-- Claim C15.  Bounded retry: `DecodeToken` is a total function (its loop
runs at most twice), and for every header, required-scope list, initial
cache, key source and verifier a call makes at most 2 `FetchKey` calls and
at most 2 verifications; with a non-empty cached key at the start it makes
at most 1 `FetchKey` call. -/
theorem DecodeToken_bounded_retry (env : Env) (a : accessToken) (h : String)
    (R : List String) :
    fetchCount (DecodeToken env a h R).2.calls ≤ fetchCount a.calls + 2 ∧
    parseCount (DecodeToken env a h R).2.calls ≤ parseCount a.calls + 2 ∧
    (a.uaaPublicKey ≠ "" →
      fetchCount (DecodeToken env a h R).2.calls ≤ fetchCount a.calls + 1) := by
  rw [DecodeToken_state]
  cases hfmt : (checkTokenFormat h).2 with
  | some e0 => simp
  | none =>
    simp only
    exact ⟨(decodeLoop_counts env _ 2 false none none a).1,
      (decodeLoop_counts env _ 2 false none none a).2,
      fun hK => decodeLoop_cached_fetches env _ a hK⟩

/-- Claim C15 on the sample collaborators: cached key `pemOld`, one
refetch, two verifications. -/
theorem DecodeToken_bounded_retry_witness :
    fetchCount (DecodeToken sampleEnv ⟨pemOld, []⟩ "bearer x" ["b"]).2.calls ≤
      fetchCount ([] : List Event) + 1 ∧
    fetchCount (DecodeToken sampleEnv ⟨pemOld, []⟩ "bearer x" ["b"]).2.calls = 1 ∧
    parseCount (DecodeToken sampleEnv ⟨pemOld, []⟩ "bearer x" ["b"]).2.calls = 2 :=
  ⟨(DecodeToken_bounded_retry sampleEnv ⟨pemOld, []⟩ "bearer x" ["b"]).2.2 (by decide),
   by decide, by decide⟩

/-- Through the retry loop the cache is kept or replaced by a key that a
fetch of this loop returned without error and that passed
`checkPublicKey`; and fetches are only added to the record. -/
theorem decodeLoop_cache (env : Env) (t : String) (k : Nat) :
    ∀ (force : Bool) (tok : Option Token) (err : Option GoError) (a : accessToken),
      fetchCount a.calls ≤ fetchCount (decodeLoop env t k force tok err a).2.calls ∧
      ((decodeLoop env t k force tok err a).2.uaaPublicKey = a.uaaPublicKey ∨
        ∃ n, fetchCount a.calls ≤ n ∧
          n < fetchCount (decodeLoop env t k force tok err a).2.calls ∧
          (env.FetchKey n).1 = (decodeLoop env t k force tok err a).2.uaaPublicKey ∧
          (env.FetchKey n).2 = none ∧
          env.pemDecode (decodeLoop env t k force tok err a).2.uaaPublicKey = true) := by
  induction k with
  | zero =>
    intro force tok err a
    simp [decodeLoop]
  | succ k ih =>
    intro force tok err a
    obtain ⟨_, g2, _, g4⟩ := getUaaTokenKey_trace env a force
    have step : ∀ (f2 : Bool) (tk : Option Token) (er : Option GoError),
        fetchCount a.calls ≤ fetchCount (decodeLoop env t k f2 tk er
          ⟨(getUaaTokenKey env a force).2.uaaPublicKey,
            (getUaaTokenKey env a force).2.calls ++
              [Event.parse t (getUaaTokenKey env a force).1.1]⟩).2.calls ∧
        ((decodeLoop env t k f2 tk er
          ⟨(getUaaTokenKey env a force).2.uaaPublicKey,
            (getUaaTokenKey env a force).2.calls ++
              [Event.parse t (getUaaTokenKey env a force).1.1]⟩).2.uaaPublicKey =
            a.uaaPublicKey ∨
          ∃ n, fetchCount a.calls ≤ n ∧
            n < fetchCount (decodeLoop env t k f2 tk er
              ⟨(getUaaTokenKey env a force).2.uaaPublicKey,
                (getUaaTokenKey env a force).2.calls ++
                  [Event.parse t (getUaaTokenKey env a force).1.1]⟩).2.calls ∧
            (env.FetchKey n).1 = (decodeLoop env t k f2 tk er
              ⟨(getUaaTokenKey env a force).2.uaaPublicKey,
                (getUaaTokenKey env a force).2.calls ++
                  [Event.parse t (getUaaTokenKey env a force).1.1]⟩).2.uaaPublicKey ∧
            (env.FetchKey n).2 = none ∧
            env.pemDecode (decodeLoop env t k f2 tk er
              ⟨(getUaaTokenKey env a force).2.uaaPublicKey,
                (getUaaTokenKey env a force).2.calls ++
                  [Event.parse t (getUaaTokenKey env a force).1.1]⟩).2.uaaPublicKey = true) := by
      intro f2 tk er
      obtain ⟨i1, i2⟩ := ih f2 tk er
        ⟨(getUaaTokenKey env a force).2.uaaPublicKey,
          (getUaaTokenKey env a force).2.calls ++
            [Event.parse t (getUaaTokenKey env a force).1.1]⟩
      simp only [fetchCount_append, fetchCount, Nat.add_zero] at i1 i2
      refine ⟨by omega, ?_⟩
      rcases i2 with i2 | ⟨n, n1, n2, n3, n4, n5⟩
      · rcases g4 with g4 | ⟨q1, q2, q3, q4⟩
        · left
          rw [i2, g4]
        · right
          refine ⟨fetchCount a.calls, le_refl _, by omega, ?_, q3, ?_⟩
          · rw [i2]; exact q2
          · rw [i2]; exact q4
      · right
        exact ⟨n, by omega, n2, n3, n4, n5⟩
    rw [decodeLoop]
    cases hr : (getUaaTokenKey env a force).1.2 with
    | some e =>
      simp only [hr]
      refine ⟨g2, ?_⟩
      rcases g4 with g4 | ⟨q1, q2, q3, q4⟩
      · left; exact g4
      · right
        exact ⟨fetchCount a.calls, le_refl _, by omega, q2, q3, q4⟩
    | none =>
      simp only [hr]
      cases hp : env.Parse (parseCount (getUaaTokenKey env a force).2.calls) t
          (getUaaTokenKey env a force).1.1 with
      | error e2 =>
        simp only [hp]
        by_cases hm : matchesError e2 ValidationErrorSignatureInvalid = true
        · simp only [hm, if_true]
          exact step true none (some e2)
        · rw [if_neg hm]
          simp only [fetchCount_append, fetchCount, Nat.add_zero]
          refine ⟨g2, ?_⟩
          rcases g4 with g4 | ⟨q1, q2, q3, q4⟩
          · left; exact g4
          · right
            exact ⟨fetchCount a.calls, le_refl _, by omega, q2, q3, q4⟩
      | ok tk =>
        simp only [hp]
        exact step force (some tk) none

/-- Claim C14.  Cache invariant: through `DecodeToken` the cached key is
kept or replaced wholesale by a key that a `FetchKey` call of this
execution returned without error and that passed `checkPublicKey`; so
the predicate `empty or well-formed PEM` is preserved, for every header,
required-scope list, key source and verifier; a non-empty cache does not
become empty (the PEM decoder finds no block in the empty string); and
`CheckPublicToken` changes nothing. -/
theorem cache_invariant (env : Env) (a : accessToken) (h : String) (R : List String) :
    ((DecodeToken env a h R).2.uaaPublicKey = a.uaaPublicKey ∨
      ∃ n, fetchCount a.calls ≤ n ∧ n < fetchCount (DecodeToken env a h R).2.calls ∧
        (env.FetchKey n).1 = (DecodeToken env a h R).2.uaaPublicKey ∧
        (env.FetchKey n).2 = none ∧
        checkPublicKey env (DecodeToken env a h R).2.uaaPublicKey = none) ∧
    ((a.uaaPublicKey = "" ∨ checkPublicKey env a.uaaPublicKey = none) →
      ((DecodeToken env a h R).2.uaaPublicKey = "" ∨
        checkPublicKey env (DecodeToken env a h R).2.uaaPublicKey = none)) ∧
    (env.pemDecode "" = false → a.uaaPublicKey ≠ "" →
      (DecodeToken env a h R).2.uaaPublicKey ≠ "") ∧
    (CheckPublicToken env a).2 = a := by
  have key : (DecodeToken env a h R).2.uaaPublicKey = a.uaaPublicKey ∨
      ∃ n, fetchCount a.calls ≤ n ∧ n < fetchCount (DecodeToken env a h R).2.calls ∧
        (env.FetchKey n).1 = (DecodeToken env a h R).2.uaaPublicKey ∧
        (env.FetchKey n).2 = none ∧
        env.pemDecode (DecodeToken env a h R).2.uaaPublicKey = true := by
    rw [DecodeToken_state]
    cases hfmt : (checkTokenFormat h).2 with
    | some e0 => left; rfl
    | none => exact (decodeLoop_cache env _ 2 false none none a).2
  refine ⟨?_, ?_, ?_, rfl⟩
  · rcases key with key | ⟨n, n1, n2, n3, n4, n5⟩
    · left; exact key
    · right
      exact ⟨n, n1, n2, n3, n4, by simp [checkPublicKey, n5]⟩
  · intro hinv
    rcases key with key | ⟨n, n1, n2, n3, n4, n5⟩
    · rw [key]; exact hinv
    · right
      simp [checkPublicKey, n5]
  · intro hpem hne
    rcases key with key | ⟨n, n1, n2, n3, n4, n5⟩
    · rw [key]; exact hne
    · intro hc
      rw [hc, hpem] at n5
      cases n5

/-- Claim C14 on the sample collaborators: after a key rotation the cache
`pemOld` is replaced by `pemNew`, which is PEM and not empty. -/
theorem cache_invariant_witness :
    ((DecodeToken sampleEnv ⟨pemOld, []⟩ "bearer x" ["b"]).2.uaaPublicKey = "" ∨
      checkPublicKey sampleEnv
        (DecodeToken sampleEnv ⟨pemOld, []⟩ "bearer x" ["b"]).2.uaaPublicKey = none) ∧
    (DecodeToken sampleEnv ⟨pemOld, []⟩ "bearer x" ["b"]).2.uaaPublicKey ≠ "" :=
  ⟨(cache_invariant sampleEnv ⟨pemOld, []⟩ "bearer x" ["b"]).2.1 (Or.inr (by decide)),
   (cache_invariant sampleEnv ⟨pemOld, []⟩ "bearer x" ["b"]).2.2.1 (by decide) (by decide)⟩

/-! ## The health check after a successful call -/

/-- When `getUaaTokenKey` returns without error on a cache that is empty or
PEM, the key it returns is the cached key afterwards and it is PEM. -/
theorem getUaaTokenKey_ok_pem (env : Env) (a : accessToken) (force : Bool)
    (hinv : a.uaaPublicKey = "" ∨ env.pemDecode a.uaaPublicKey = true)
    (hok : (getUaaTokenKey env a force).1.2 = none) :
    (getUaaTokenKey env a force).1.1 = (getUaaTokenKey env a force).2.uaaPublicKey ∧
    env.pemDecode (getUaaTokenKey env a force).2.uaaPublicKey = true := by
  by_cases hc : a.uaaPublicKey = "" ∨ force = true
  · cases hr : (env.FetchKey (fetchCount a.calls)).2 with
    | some e =>
      have hx : (getUaaTokenKey env a force).1.2 = some e := by
        simp [getUaaTokenKey, getUaaPublicKey, hc, hr]
      rw [hx] at hok
      cases hok
    | none =>
      cases hp : env.pemDecode (env.FetchKey (fetchCount a.calls)).1
      · have hx : (getUaaTokenKey env a force).1.2 =
            some (GoError.errorString "Public uaa token must be PEM encoded") := by
          simp [getUaaTokenKey, getUaaPublicKey, hc, hr, checkPublicKey, hp]
        rw [hx] at hok
        cases hok
      · rw [getUaaTokenKey_fetched env a force _ hc (Prod.ext rfl hr) hp]
        exact ⟨rfl, hp⟩
  · have hne : a.uaaPublicKey ≠ "" := fun hx => hc (Or.inl hx)
    have hf : force = false := by
      cases force
      · rfl
      · exact absurd (Or.inr rfl) hc
    subst hf
    rw [getUaaTokenKey_cached env a hne]
    rcases hinv with hinv | hinv
    · exact absurd hinv hne
    · exact ⟨rfl, hinv⟩

/-- A `return` from inside the retry loop carries a non-nil error. -/
theorem decodeLoop_ret_some (env : Env) (t : String) (k : Nat) :
    ∀ (force : Bool) (tok : Option Token) (err : Option GoError) (a : accessToken),
      (decodeLoop env t k force tok err a).1 ≠ LoopExit.ret none := by
  induction k with
  | zero =>
    intro force tok err a
    simp [decodeLoop]
  | succ k ih =>
    intro force tok err a
    rw [decodeLoop]
    cases hr : (getUaaTokenKey env a force).1.2 with
    | some e => simp [hr]
    | none =>
      simp only [hr]
      cases hp : env.Parse (parseCount (getUaaTokenKey env a force).2.calls) t
          (getUaaTokenKey env a force).1.1 with
      | error e2 =>
        simp only [hp]
        by_cases hm : matchesError e2 ValidationErrorSignatureInvalid = true
        · rw [if_pos hm]
          exact ih _ _ _ _
        · rw [if_neg hm]
          simp
      | ok tk =>
        simp only [hp]
        exact ih _ _ _ _

/-- Once the cached key is PEM it stays PEM through the retry loop. -/
theorem decodeLoop_pem (env : Env) (t : String) (k : Nat) (force : Bool)
    (tok : Option Token) (err : Option GoError) (a : accessToken)
    (hp : env.pemDecode a.uaaPublicKey = true) :
    env.pemDecode (decodeLoop env t k force tok err a).2.uaaPublicKey = true := by
  rcases (decodeLoop_cache env t k force tok err a).2 with h | ⟨n, _, _, _, _, h⟩
  · rw [h]; exact hp
  · exact h

/-- When the retry loop runs out (no `return` from inside) after at least
one iteration on a cache that was empty or PEM, the cached key is PEM. -/
theorem decodeLoop_done_pem (env : Env) (t : String) (k : Nat) (force : Bool)
    (tok : Option Token) (err : Option GoError) (a : accessToken)
    (tok2 : Option Token) (err2 : Option GoError)
    (hinv : a.uaaPublicKey = "" ∨ env.pemDecode a.uaaPublicKey = true)
    (hd : (decodeLoop env t (k + 1) force tok err a).1 = LoopExit.done tok2 err2) :
    env.pemDecode (decodeLoop env t (k + 1) force tok err a).2.uaaPublicKey = true := by
  rw [decodeLoop] at hd ⊢
  cases hr : (getUaaTokenKey env a force).1.2 with
  | some e =>
    simp only [hr] at hd
    cases hd
  | none =>
    have hk := (getUaaTokenKey_ok_pem env a force hinv hr).2
    simp only [hr] at hd ⊢
    cases hp : env.Parse (parseCount (getUaaTokenKey env a force).2.calls) t
        (getUaaTokenKey env a force).1.1 with
    | error e2 =>
      simp only [hp] at hd ⊢
      by_cases hm : matchesError e2 ValidationErrorSignatureInvalid = true
      · rw [if_pos hm]
        exact decodeLoop_pem env t k _ _ _ _ hk
      · rw [if_neg hm] at hd
        cases hd
    | ok tk =>
      simp only [hp]
      exact decodeLoop_pem env t k _ _ _ _ hk

/-- When `DecodeToken` returns nil the header was well formed and the retry
loop ran out without a `return` from inside. -/
theorem DecodeToken_nil_loop (env : Env) (a : accessToken) (h : String) (R : List String)
    (hnil : (DecodeToken env a h R).1 = Outcome.returned none) :
    (checkTokenFormat h).2 = none ∧
    ∃ tok err, (decodeLoop env (checkTokenFormat h).1 2 false none none a).1 =
      LoopExit.done tok err := by
  cases hfmt : (checkTokenFormat h).2 with
  | some e0 =>
    simp [DecodeToken, hfmt] at hnil
  | none =>
    refine ⟨rfl, ?_⟩
    cases hl : (decodeLoop env (checkTokenFormat h).1 2 false none none a).1 with
    | done tok err => exact ⟨tok, err, rfl⟩
    | ret err =>
      rw [DecodeToken_of_ret env a h R err hfmt hl] at hnil
      cases hnil
      exact absurd hl (decodeLoop_ret_some env _ 2 false none none a)

/-- Claim C12.  For an authenticator constructed with an empty key,
`CheckPublicToken` returns an error before any `DecodeToken` call (the PEM
decoder finds no block in the empty string), and after a `DecodeToken` call
that returned nil `CheckPublicToken` returns nil. -/
theorem CheckPublicToken_cold_start (env : Env) (h : String) (R : List String)
    (hpem : env.pemDecode "" = false) :
    (CheckPublicToken env (NewAccessToken "")).1 ≠ none ∧
    ((DecodeToken env (NewAccessToken "") h R).1 = Outcome.returned none →
      (CheckPublicToken env (DecodeToken env (NewAccessToken "") h R).2).1 = none) := by
  constructor
  · simp [CheckPublicToken, checkPublicKey, getUaaPublicKey, NewAccessToken, hpem]
  · intro hnil
    obtain ⟨hfmt, tok, err, hd⟩ := DecodeToken_nil_loop env _ h R hnil
    have hk := decodeLoop_done_pem env (checkTokenFormat h).1 1 false none none
      (NewAccessToken "") tok err (Or.inl rfl) hd
    have hs := DecodeToken_state env (NewAccessToken "") h R
    simp only [hfmt] at hs
    simp [CheckPublicToken, checkPublicKey, getUaaPublicKey, hs, hk]

/-- Claim C12 on the sample collaborators: the first call fetches `pemNew`
and authorizes the token `x`. -/
theorem CheckPublicToken_cold_start_witness :
    (CheckPublicToken sampleEnv (NewAccessToken "")).1 ≠ none ∧
    (DecodeToken sampleEnv (NewAccessToken "") "bearer x" ["b"]).1 = Outcome.returned none ∧
    (CheckPublicToken sampleEnv
      (DecodeToken sampleEnv (NewAccessToken "") "bearer x" ["b"]).2).1 = none :=
  ⟨(CheckPublicToken_cold_start sampleEnv "bearer x" ["b"] (by decide)).1,
   by decide,
   (CheckPublicToken_cold_start sampleEnv "bearer x" ["b"] (by decide)).2 (by decide)⟩

/-! ## The second iteration of the retry loop -/

/-- A forced `getUaaTokenKey` succeeds exactly when the fetch returns no
error and a key that passes `checkPublicKey`. -/
theorem getUaaTokenKey_forced_ok_iff (env : Env) (a : accessToken) :
    (getUaaTokenKey env a true).1.2 = none ↔
      ((env.FetchKey (fetchCount a.calls)).2 = none ∧
        checkPublicKey env (env.FetchKey (fetchCount a.calls)).1 = none) := by
  cases hr : (env.FetchKey (fetchCount a.calls)).2 with
  | some e => simp [getUaaTokenKey, hr]
  | none =>
    cases hp : checkPublicKey env (env.FetchKey (fetchCount a.calls)).1 with
    | some e => simp [getUaaTokenKey, hr, hp]
    | none => simp [getUaaTokenKey, hr, hp]

/-- When an unforced `getUaaTokenKey` returns without error, the key it
returns is the cached key afterwards and is not empty, the PEM decoder
finding no block in the empty string. -/
theorem getUaaTokenKey_ok_nonempty (env : Env) (a : accessToken)
    (hpem : env.pemDecode "" = false)
    (hok : (getUaaTokenKey env a false).1.2 = none) :
    (getUaaTokenKey env a false).1.1 = (getUaaTokenKey env a false).2.uaaPublicKey ∧
    (getUaaTokenKey env a false).2.uaaPublicKey ≠ "" := by
  by_cases hc : a.uaaPublicKey = ""
  · have hk := getUaaTokenKey_ok_pem env a false (Or.inl hc) hok
    refine ⟨hk.1, ?_⟩
    intro hx
    rw [hx, hpem] at hk
    exact absurd hk.2 (by simp)
  · rw [getUaaTokenKey_cached env a hc]
    exact ⟨rfl, hc⟩

/-- The last iteration of the retry loop verifies once when its
`getUaaTokenKey` returns without error, and not at all otherwise. -/
theorem decodeLoop_one_parses (env : Env) (t : String) (force : Bool) (tok : Option Token)
    (err : Option GoError) (a : accessToken) :
    parseCount (decodeLoop env t 1 force tok err a).2.calls =
      parseCount a.calls + (if (getUaaTokenKey env a force).1.2 = none then 1 else 0) := by
  have hg := (getUaaTokenKey_trace env a force).1
  rw [decodeLoop]
  cases hr : (getUaaTokenKey env a force).1.2 with
  | some e => simp [hg]
  | none =>
    simp only [hr]
    cases hp : env.Parse (parseCount (getUaaTokenKey env a force).2.calls) t
        (getUaaTokenKey env a force).1.1 with
    | error e2 =>
      simp only [hp]
      by_cases hm : matchesError e2 ValidationErrorSignatureInvalid = true
      · rw [if_pos hm]
        simp [decodeLoop, parseCount, hg]
      · rw [if_neg hm]
        simp [parseCount, hg]
    | ok tk =>
      simp only [hp]
      simp [decodeLoop, parseCount, hg]

/-- The run of `DecodeToken` when the first verification succeeds: the second
iteration reads the cache and verifies again, and the result is that of
the second verification. -/
theorem DecodeToken_first_ok (env : Env) (a : accessToken) (h t : String) (R : List String)
    (tok1 : Token)
    (hfmt : checkTokenFormat h = (t, none))
    (hpem : env.pemDecode "" = false)
    (hok : (getUaaTokenKey env a false).1.2 = none)
    (hv : env.Parse (parseCount a.calls) t (getUaaTokenKey env a false).1.1 =
      Except.ok tok1) :
    DecodeToken env a h R =
      ((match env.Parse (parseCount a.calls + 1) t (getUaaTokenKey env a false).1.1 with
        | Except.ok tok2 => checkScope tok2 R
        | Except.error e => Outcome.returned (some e)),
       ⟨(getUaaTokenKey env a false).1.1,
        (getUaaTokenKey env a false).2.calls ++
          [Event.parse t (getUaaTokenKey env a false).1.1,
           Event.parse t (getUaaTokenKey env a false).1.1]⟩) := by
  obtain ⟨hk1, hk2⟩ := getUaaTokenKey_ok_nonempty env a hpem hok
  have hg := (getUaaTokenKey_trace env a false).1
  simp only [DecodeToken, hfmt]
  rw [decodeLoop]
  generalize getUaaTokenKey env a false = g at *
  obtain ⟨⟨K, er⟩, s1⟩ := g
  simp only at hok hk1 hk2 hg hv
  subst hok
  subst hk1
  have hc := getUaaTokenKey_cached env
    ⟨s1.uaaPublicKey, s1.calls ++ [Event.parse t s1.uaaPublicKey]⟩ hk2
  simp only [hg, hv]
  rw [decodeLoop]
  simp only [hc, parseCount_append, parseCount, hg]
  cases hp : env.Parse (parseCount a.calls + 1) t s1.uaaPublicKey with
  | error e2 =>
    by_cases hm : matchesError e2 ValidationErrorSignatureInvalid = true
    · simp [hm, decodeLoop]
    · simp [hm]
  | ok tk =>
    simp [decodeLoop]

/-- The number of verifications of a run of `DecodeToken` on a well-formed
header is one exactly when the first verification fails and no second one
is made: the error is not a signature-invalid one, or the forced refetch
fails or returns a key that is not PEM. -/
theorem DecodeToken_one_parse_iff (env : Env) (a : accessToken) (h t : String)
    (R : List String)
    (hfmt : checkTokenFormat h = (t, none))
    (hpem : env.pemDecode "" = false) :
    parseCount (DecodeToken env a h R).2.calls = parseCount a.calls + 1 ↔
      ∃ e, (getUaaTokenKey env a false).1.2 = none ∧
        env.Parse (parseCount a.calls) t (getUaaTokenKey env a false).1.1 =
          Except.error e ∧
        (matchesError e ValidationErrorSignatureInvalid = false ∨
          (env.FetchKey (fetchCount (getUaaTokenKey env a false).2.calls)).2 ≠ none ∨
          checkPublicKey env
            (env.FetchKey (fetchCount (getUaaTokenKey env a false).2.calls)).1 ≠ none) := by
  have hg := (getUaaTokenKey_trace env a false).1
  cases hr : (getUaaTokenKey env a false).1.2 with
  | some e0 =>
    have hs : (DecodeToken env a h R).2 = (getUaaTokenKey env a false).2 := by
      rw [DecodeToken_state]
      simp only [hfmt]
      rw [decodeLoop]
      simp only [hr]
    rw [hs, hg]
    simp
  | none =>
    cases hp : env.Parse (parseCount a.calls) t (getUaaTokenKey env a false).1.1 with
    | ok tk =>
      rw [DecodeToken_first_ok env a h t R tk hfmt hpem hr hp]
      simp [parseCount, hg]
    | error e =>
      have hp2 : env.Parse (parseCount (getUaaTokenKey env a false).2.calls) t
          (getUaaTokenKey env a false).1.1 = Except.error e := by rw [hg]; exact hp
      by_cases hm : matchesError e ValidationErrorSignatureInvalid = true
      · have hs : (DecodeToken env a h R).2 =
            (decodeLoop env t 1 true none (some e)
              ⟨(getUaaTokenKey env a false).2.uaaPublicKey,
                (getUaaTokenKey env a false).2.calls ++
                  [Event.parse t (getUaaTokenKey env a false).1.1]⟩).2 := by
          rw [DecodeToken_state]
          simp only [hfmt]
          rw [decodeLoop]
          simp only [hr, hp2, hm, if_true]
        rw [hs, decodeLoop_one_parses]
        have hi := getUaaTokenKey_forced_ok_iff env
          ⟨(getUaaTokenKey env a false).2.uaaPublicKey,
            (getUaaTokenKey env a false).2.calls ++
              [Event.parse t (getUaaTokenKey env a false).1.1]⟩
        simp only [fetchCount_append, fetchCount, Nat.add_zero] at hi
        simp only [parseCount_append, parseCount, hg]
        constructor
        · intro hc
          refine ⟨e, trivial, rfl, Or.inr ?_⟩
          by_contra hn
          have hn2 : (env.FetchKey (fetchCount (getUaaTokenKey env a false).2.calls)).2 = none ∧
              checkPublicKey env
                (env.FetchKey (fetchCount (getUaaTokenKey env a false).2.calls)).1 = none := by
            constructor
            · by_contra hx
              exact hn (Or.inl hx)
            · by_contra hx
              exact hn (Or.inr hx)
          rw [if_pos (hi.2 hn2)] at hc
          omega
        · rintro ⟨e1, _, he1, hd⟩
          cases he1
          rcases hd with hd | hd | hd
          · rw [hm] at hd
            cases hd
          · rw [if_neg (fun hx => hd (hi.1 hx).1)]
          · rw [if_neg (fun hx => hd (hi.1 hx).2)]
      · have hs : (DecodeToken env a h R).2 =
            ⟨(getUaaTokenKey env a false).2.uaaPublicKey,
              (getUaaTokenKey env a false).2.calls ++
                [Event.parse t (getUaaTokenKey env a false).1.1]⟩ := by
          rw [DecodeToken_state]
          simp only [hfmt]
          rw [decodeLoop]
          simp only [hr, hp2]
          rw [if_neg hm]
        rw [hs]
        simp only [parseCount_append, parseCount, hg, true_iff]
        exact ⟨e, trivial, rfl, Or.inl (by simpa using hm)⟩

/-- Claim C18, as amended.  The retry loop does not stop on success: on a
well-formed header, once the key has been obtained and the first
verification succeeds, the second iteration runs without a refetch, against
the cached key, the verifier is invoked exactly twice, and the scope check
and the returned error come from the second invocation.  Exactly one
verification is performed exactly when the first one fails and either its
error is not a signature-invalid one, or the forced refetch fails or
returns a key that is not PEM.  (The PEM decoder finds no block in the
empty string.) -/
theorem DecodeToken_second_verification (env : Env) (a : accessToken) (h t : String)
    (R : List String)
    (hfmt : checkTokenFormat h = (t, none))
    (hpem : env.pemDecode "" = false) :
    (∀ tok1 : Token, (getUaaTokenKey env a false).1.2 = none →
      env.Parse (parseCount a.calls) t (getUaaTokenKey env a false).1.1 = Except.ok tok1 →
      (DecodeToken env a h R).1 =
        (match env.Parse (parseCount a.calls + 1) t (getUaaTokenKey env a false).1.1 with
          | Except.ok tok2 => checkScope tok2 R
          | Except.error e => Outcome.returned (some e)) ∧
      (DecodeToken env a h R).2 =
        ⟨(getUaaTokenKey env a false).1.1,
          (getUaaTokenKey env a false).2.calls ++
            [Event.parse t (getUaaTokenKey env a false).1.1,
             Event.parse t (getUaaTokenKey env a false).1.1]⟩ ∧
      parseCount (DecodeToken env a h R).2.calls = parseCount a.calls + 2 ∧
      fetchCount (DecodeToken env a h R).2.calls =
        fetchCount (getUaaTokenKey env a false).2.calls) ∧
    (parseCount (DecodeToken env a h R).2.calls = parseCount a.calls + 1 ↔
      ∃ e, (getUaaTokenKey env a false).1.2 = none ∧
        env.Parse (parseCount a.calls) t (getUaaTokenKey env a false).1.1 =
          Except.error e ∧
        (matchesError e ValidationErrorSignatureInvalid = false ∨
          (env.FetchKey (fetchCount (getUaaTokenKey env a false).2.calls)).2 ≠ none ∨
          checkPublicKey env
            (env.FetchKey (fetchCount (getUaaTokenKey env a false).2.calls)).1 ≠ none)) := by
  refine ⟨?_, DecodeToken_one_parse_iff env a h t R hfmt hpem⟩
  intro tok1 hok hv
  have hd := DecodeToken_first_ok env a h t R tok1 hfmt hpem hok hv
  have hg := (getUaaTokenKey_trace env a false).1
  rw [hd]
  simp [parseCount, fetchCount, hg]

/-- Claim C18, as amended, on the sample collaborators: the token `x` is
verified twice under the cached key `pemNew`, without a fetch. -/
theorem DecodeToken_second_verification_witness :
    (DecodeToken sampleEnv ⟨pemNew, []⟩ "bearer x" ["b"]).2 =
      ⟨pemNew, [Event.parse "x" pemNew, Event.parse "x" pemNew]⟩ ∧
    parseCount (DecodeToken sampleEnv ⟨pemNew, []⟩ "bearer x" ["b"]).2.calls =
      parseCount ([] : List Event) + 2 :=
  ⟨((DecodeToken_second_verification sampleEnv ⟨pemNew, []⟩ "bearer x" "x" ["b"]
      (by decide) (by decide)).1 tokenAB rfl rfl).2.1,
   ((DecodeToken_second_verification sampleEnv ⟨pemNew, []⟩ "bearer x" "x" ["b"]
      (by decide) (by decide)).1 tokenAB rfl rfl).2.2.1⟩

/-- Claim C18 as stated fails in its last part: with the cached key
`pemOld` the first verification of `x` fails on the signature, the forced
refetch returns a key that is not PEM, and exactly one verification has
been performed although the first error is a signature-invalid one. -/
theorem DecodeToken_second_verification_counterexample :
    parseCount (DecodeToken sampleEnvBadKey ⟨pemOld, []⟩ "bearer x" ["b"]).2.calls = 1 ∧
    sampleEnvBadKey.Parse 0 "x" pemOld =
      Except.error (GoError.validationError ValidationErrorSignatureInvalid
        "signature is invalid") ∧
    matchesError (GoError.validationError ValidationErrorSignatureInvalid
      "signature is invalid") ValidationErrorSignatureInvalid = true ∧
    (DecodeToken sampleEnvBadKey ⟨pemOld, []⟩ "bearer x" ["b"]).1 =
      Outcome.returned (some (GoError.errorString "Public uaa token must be PEM encoded")) := by
  refine ⟨by decide, rfl, by decide, by decide⟩

end Authentication
